import Mathlib

/-!
Verification development for the Pointset-Symmetry repository.

The Python sources are shallowly embedded over the real numbers: every
float is modelled as a real number (exact arithmetic), Python's `round`
(banker's rounding, half to even) as `pyround`, Python's `%` on floats as
`pymod`, `math.atan2 y x` as `Complex.arg ⟨x, y⟩` (same range `(-π, π]`)
and `math.hypot`-style magnitudes as `Complex.abs ⟨x, y⟩`.  The external
`point2d` library (spec section 2: geometry primitives, assumed available)
stores both the Cartesian view `x, y` and the polar view `r, a` of a
vector; it is embedded as a four-field structure whose constructors and
setters keep the two views in sync exactly as the library does.

Python dictionaries are embedded as insertion-ordered association lists,
Python sets as duplicate-free lists.  String keys produced by `str(...)`
on the floats computed in `LineDirectionKey.calculate` and
`SymmetryLineValidator.get_projected_distance_key` are modelled by the
underlying numeric values themselves: `str` is injective on them, so key
equality in the Python dictionaries coincides with numeric equality.
-/

namespace PointsetSymmetry

open Real

/-- Modelled from the spec: the repository's `constants` module is not under
`src/`.  The spec describes `EPSILON` as the fixed small positive tolerance
used for all coincidence, alignment and shell-gap comparisons; it is taken
here as `10⁻⁶`, a representative small tolerance. -/
noncomputable def EPSILON : ℝ := 1 / 1000000

/-- Modelled from the spec: the repository's `constants` module is not under
`src/`.  The spec describes `MAX_PRECISION` as the fixed decimal precision
factor used in `round(value * MAX_PRECISION) / MAX_PRECISION`; the test
expectations (one decimal digit in direction labels such as `157.5`) fix it
as `10`. -/
noncomputable def MAX_PRECISION : ℝ := 10

/-- Python's built-in `round` to an integer: round half to even. -/
noncomputable def pyround (x : ℝ) : ℤ :=
  if Int.fract x < 1 / 2 then ⌊x⌋
  else if 1 / 2 < Int.fract x then ⌊x⌋ + 1
  else if Even ⌊x⌋ then ⌊x⌋ else ⌊x⌋ + 1

/-- Python's `%` on floats: `x % y = x - y * ⌊x / y⌋` (sign of the divisor). -/
noncomputable def pymod (x y : ℝ) : ℝ := x - y * ⌊x / y⌋

/-- Python's `math.degrees`. -/
noncomputable def degrees (x : ℝ) : ℝ := x * 180 / π

/-- The `Point2D` type of the external `point2d` library: a planar vector
carrying both its Cartesian view `x, y` and its polar view `r, a`.  The
library keeps the two views in sync: constructing from Cartesian data
computes `r, a` by `hypot`/`atan2`, and the `r`/`a` setters recompute the
Cartesian view from the stored polar data. -/
structure Point2D where
  x : ℝ
  y : ℝ
  r : ℝ
  a : ℝ

namespace Point2D

/-- `Point2D(x, y)`: Cartesian constructor; the polar view is computed by
`hypot` and `atan2` (embedded as `Complex.abs` and `Complex.arg`). -/
noncomputable def ofCartesian (x y : ℝ) : Point2D :=
  ⟨x, y, Complex.abs ⟨x, y⟩, Complex.arg ⟨x, y⟩⟩

/-- `p.polar(r, a)`: polar constructor; the Cartesian view is recomputed. -/
noncomputable def polar (r a : ℝ) : Point2D :=
  ⟨r * Real.cos a, r * Real.sin a, r, a⟩

/-- Assignment to the `a` property: stores the new angle and recomputes the
Cartesian view from the stored radius. -/
noncomputable def setA (p : Point2D) (a : ℝ) : Point2D :=
  ⟨p.r * Real.cos a, p.r * Real.sin a, p.r, a⟩

/-- Assignment to the `r` property: stores the new radius and recomputes the
Cartesian view from the stored angle. -/
noncomputable def setR (p : Point2D) (r : ℝ) : Point2D :=
  ⟨r * Real.cos p.a, r * Real.sin p.a, r, p.a⟩

/-- `p + q`: Cartesian addition; the polar view is recomputed. -/
noncomputable def add (p q : Point2D) : Point2D := ofCartesian (p.x + q.x) (p.y + q.y)

/-- `p - q`: Cartesian subtraction; the polar view is recomputed. -/
noncomputable def sub (p q : Point2D) : Point2D := ofCartesian (p.x - q.x) (p.y - q.y)

end Point2D

/-- The `Point` record (`point/point.py`): identifier, location, shell
label (`color`) and distance to the barycenter.  Identifiers are the
sequential indices `str(idx)`; they are modelled by the indices. -/
structure Point where
  id : ℕ
  location : Point2D
  color : ℕ
  distance_barycenter : ℝ

/-- The annotated point set (`pointset/pointset.py`): the insertion-ordered
point collection (a Python dict keyed by the sequential ids), the
barycenter and the radius. -/
structure PointSet where
  points : List Point
  set_barycenter : Point2D
  set_radius : ℝ

namespace PointSet

/-- The accumulation `self.set_barycenter += pt` over all input points
followed by `self.set_barycenter.r /= float(len(points))`. -/
noncomputable def barycenterOf (coords : List (ℝ × ℝ)) : Point2D :=
  let s := coords.foldl
    (fun acc c => Point2D.add acc (Point2D.ofCartesian c.1 c.2))
    (Point2D.ofCartesian 0 0)
  Point2D.setR s (s.r / (coords.length : ℝ))

/-- The per-point distances to the barycenter, paired with the sequential
point indices, in insertion order. -/
noncomputable def distPairs (coords : List (ℝ × ℝ)) : List (ℕ × ℝ) :=
  (coords.enum.map fun c =>
    (c.1, (Point2D.sub (Point2D.ofCartesian c.2.1 c.2.2) (barycenterOf coords)).r))

/-- Python's stable `sorted(..., key=distance, reverse=True)`: a stable sort
by descending distance. -/
noncomputable def sortedDistPairs (coords : List (ℝ × ℝ)) : List (ℕ × ℝ) :=
  (distPairs coords).insertionSort (fun p q => q.2 ≤ p.2)

/-- One iteration block of the shell-assignment loop after the first point:
`prev_distance` is updated (and the counter incremented) only when the gap
to the stored reference distance exceeds `EPSILON`. -/
noncomputable def colorWalk : ℝ → ℕ → List (ℕ × ℝ) → List (ℕ × ℕ × ℝ)
  | _, _, [] => []
  | prev, c, (i, d) :: rest =>
    if EPSILON < |prev - d| then (i, c + 1, d) :: colorWalk d (c + 1) rest
    else (i, c, d) :: colorWalk prev c rest

/-- The full shell-assignment loop of `__set_colors_and_distances`: the
first point keeps the counter at `1` and seeds `prev_distance`. -/
noncomputable def colorAssignments : List (ℕ × ℝ) → List (ℕ × ℕ × ℝ)
  | [] => []
  | (i, d) :: rest => (i, 1, d) :: colorWalk d 1 rest

/-- Constructing the annotated `PointSet` from raw coordinates (the
`PointSet.__init__` pipeline, with the CSV loading abstracted into the
coordinate list): sequential ids, barycenter, per-point distances, radius
as the first (largest) sorted distance, and shell labels. -/
noncomputable def mk' (coords : List (ℝ × ℝ)) : PointSet :=
  let bc := barycenterOf coords
  let assignments := colorAssignments (sortedDistPairs coords)
  { points := coords.enum.map fun c =>
      let cd := ((assignments.find? fun t => t.1 = c.1).map
        fun t => t.2).getD (0, 0)
      { id := c.1
        location := Point2D.ofCartesian c.2.1 c.2.2
        color := cd.1
        distance_barycenter := cd.2 }
    set_barycenter := bc
    set_radius := (((sortedDistPairs coords).head?).map Prod.snd).getD 0 }

/-- `size()`. -/
def size (ps : PointSet) : ℕ := ps.points.length

/-- `get()`: the points in insertion order. -/
def get (ps : PointSet) : List Point := ps.points

/-- `barycenter()`. -/
def barycenter (ps : PointSet) : Point2D := ps.set_barycenter

/-- `radius()`. -/
def radius (ps : PointSet) : ℝ := ps.set_radius

end PointSet

/-- `LineDirectionKey.calculate` on the stored angle of a line: normalize
angles within `EPSILON` of `0` or `π` to `0`, otherwise reduce modulo `π`;
then take the maximum of the two independently rounded degree candidates.
The Python `str` of the resulting float is modelled by its value. -/
noncomputable def keyOfAngle (a : ℝ) : ℝ :=
  let angle := if |a| < EPSILON ∨ |π - a| < EPSILON then 0 else pymod a π
  max (((pyround (degrees (pymod (π + angle) π) * MAX_PRECISION) : ℝ)) / MAX_PRECISION)
    (((pyround (degrees angle * MAX_PRECISION) : ℝ)) / MAX_PRECISION)

namespace LineDirectionKey

/-- `LineDirectionKey.calculate(line)` reads `line.a`. -/
noncomputable def calculate (line : Point2D) : ℝ := keyOfAngle line.a

end LineDirectionKey

/-- Lookup in the association list modelling the `symmetric_lines` dict. -/
noncomputable def findVal (l : List (ℝ × Point2D)) (k : ℝ) : Option Point2D :=
  (l.find? fun kv => kv.1 = k).map Prod.snd

/-- The registry of tested candidate directions (`SymmetryLineSet`): the
confirmed map (insertion-ordered association list) and the known
non-symmetric key set (duplicate-free list). -/
structure SymmetryLineSet where
  symmetric_lines : List (ℝ × Point2D)
  non_symmetric_lines : List ℝ

namespace SymmetryLineSet

/-- The empty registry (`SymmetryLineSet()`). -/
def empty : SymmetryLineSet := ⟨[], []⟩

/-- `add(line, symmetric)`: insert the canonical key on the requested side,
only if absent there (first-write-wins). -/
noncomputable def add (s : SymmetryLineSet) (line : Point2D) (symmetric : Bool) :
    SymmetryLineSet :=
  let line_key := LineDirectionKey.calculate line
  if symmetric then
    if (findVal s.symmetric_lines line_key).isSome then s
    else { s with symmetric_lines := s.symmetric_lines ++ [(line_key, line)] }
  else
    if line_key ∈ s.non_symmetric_lines then s
    else { s with non_symmetric_lines := s.non_symmetric_lines ++ [line_key] }

/-- `contains(line, check_non_symmetry)`: membership of the canonical key in
the confirmed map, and (only when requested) in the non-symmetric set. -/
noncomputable def contains (s : SymmetryLineSet) (line : Point2D)
    (check_non_symmetry : Bool := true) : Bool :=
  let line_key := LineDirectionKey.calculate line
  if (findVal s.symmetric_lines line_key).isSome then true
  else if check_non_symmetry then decide (line_key ∈ s.non_symmetric_lines)
  else false

/-- `get_symmetric_directions()`: the confirmed keys in insertion order. -/
def get_symmetric_directions (s : SymmetryLineSet) : List ℝ :=
  s.symmetric_lines.map Prod.fst

/-- `get_symmetric_lines()`: the confirmed map itself. -/
def get_symmetric_lines (s : SymmetryLineSet) : List (ℝ × Point2D) :=
  s.symmetric_lines

end SymmetryLineSet

namespace SymmetryLineValidator

/-- `is_aligned(point, line, barycenter)`. -/
noncomputable def is_aligned (point : Point) (line barycenter : Point2D) : Bool :=
  if (Point2D.sub point.location barycenter).r < EPSILON then true
  else
    let angle := (Point2D.sub point.location barycenter).a - line.a
    decide (|pymod angle π| < EPSILON ∨ |pymod (|angle| - π) π| < EPSILON)

/-- `get_projected_distance_key`: the rounded signed projected distance of
the point onto the line; the Python `str` of the float is modelled by its
value. -/
noncomputable def get_projected_distance_key (distance_barycenter : ℝ)
    (point_line_barycenter_angle : ℝ) : ℝ :=
  (pyround (MAX_PRECISION * distance_barycenter *
    Real.cos point_line_barycenter_angle) : ℝ) / MAX_PRECISION

/-- One iteration of the `is_symmetric` loop, acting on the state
(barycenter-coincident count, on-line count, unique projected keys in
insertion order). -/
noncomputable def symStep (line barycenter : Point2D) (st : ℕ × ℕ × List ℝ)
    (point : Point) : ℕ × ℕ × List ℝ :=
  if (Point2D.sub point.location barycenter).r < EPSILON then
    (st.1 + 1, st.2.1, st.2.2)
  else if is_aligned point line barycenter then (st.1, st.2.1 + 1, st.2.2)
  else
    let distance_key := get_projected_distance_key point.distance_barycenter
      ((Point2D.sub point.location barycenter).a - line.a)
    if distance_key ∈ st.2.2 then st
    else (st.1, st.2.1, st.2.2 ++ [distance_key])

/-- `is_symmetric(mono_colored_points, line, barycenter)`: the loop followed
by the final count comparison (`points_processed_count` is the list length
minus the number of barycenter-coincident points). -/
noncomputable def is_symmetric (mono_colored_points : List Point)
    (line barycenter : Point2D) : Bool :=
  let st := mono_colored_points.foldl (symStep line barycenter) (0, 0, [])
  decide (2 * st.2.2.length = mono_colored_points.length - st.1 - st.2.1)

end SymmetryLineValidator

/-- One step of building the `color_to_points` DefaultDict: append the point
to its shell's block, creating the block at the end on first occurrence. -/
def addToBlocks : List (ℕ × List Point) → Point → List (ℕ × List Point)
  | [], p => [(p.color, [p])]
  | (c, blk) :: rest, p =>
    if p.color = c then (c, blk ++ [p]) :: rest
    else (c, blk) :: addToBlocks rest p

/-- The `color_to_points` partition of the points by shell label, blocks in
first-occurrence order, points in insertion order within each block. -/
def partitionByColor (pts : List Point) : List (ℕ × List Point) :=
  pts.foldl addToBlocks []

namespace PointSetSymmetryAnalyzer

/-- `PointSetSymmetryAnalyzer.is_symmetric(partition, line, barycenter)`:
every singleton shell's point must be aligned with the line, and every
multi-point shell must pass the validator's pairing test. -/
noncomputable def is_symmetric (partition : List (ℕ × List Point))
    (line barycenter : Point2D) : Bool :=
  (partition.all fun blk =>
    if 1 < blk.2.length then true
    else match blk.2 with
      | [] => true
      | p :: _ => SymmetryLineValidator.is_aligned p line barycenter) &&
  (partition.all fun blk =>
    if blk.2.length = 1 then true
    else SymmetryLineValidator.is_symmetric blk.2 line barycenter)

/-- `create_bisector_line(pt_a, pt_b, barycenter)`: the line through the
barycenter and the midpoint of `[AB]`, falling back to the direction
perpendicular to `AB` when the midpoint coincides with the barycenter. -/
noncomputable def create_bisector_line (pt_a pt_b barycenter : Point2D) : Point2D :=
  let sum := Point2D.add pt_a pt_b
  let mid_point := Point2D.setR sum (sum.r / 2)
  let line := Point2D.sub barycenter mid_point
  if line.r < EPSILON then
    Point2D.polar 1
      (pymod (Complex.arg ⟨pt_b.x - pt_a.x, pt_b.y - pt_a.y⟩ + π / 2) π)
  else line

/-- `create_symmetry_lines_endpoints(barycenter, length, symmetry_directions)`:
the returned dictionary is keyed by the direction `Point2D` objects obtained
from `symmetry_directions.values()`, each mapped to the two endpoints
`barycenter ± length·(cos a, sin a)`. -/
noncomputable def create_symmetry_lines_endpoints (barycenter : Point2D)
    (length : ℝ) (symmetry_directions : List (ℝ × Point2D)) :
    List (Point2D × List Point2D) :=
  symmetry_directions.map fun kv =>
    (kv.2,
      [Point2D.ofCartesian (barycenter.x + Real.cos kv.2.a * length)
        (barycenter.y + Real.sin kv.2.a * length),
       Point2D.ofCartesian (barycenter.x - Real.cos kv.2.a * length)
        (barycenter.y - Real.sin kv.2.a * length)])

/-- The `new_lines` dictionary built by `infer_next_symmetric`: for each
already-confirmed line, the two compositions with the new line, deduplicated
by canonical key in insertion order. -/
noncomputable def inferNewLines (lines : SymmetryLineSet)
    (new_symmetry_line : Point2D) : List (ℝ × Point2D) :=
  lines.symmetric_lines.foldl
    (fun acc kv =>
      let angle_step := kv.2.a - new_symmetry_line.a
      let line_from_new := Point2D.setA (Point2D.ofCartesian 0 0)
        (pymod (new_symmetry_line.a - angle_step) π)
      let acc' :=
        if (findVal acc (LineDirectionKey.calculate line_from_new)).isSome then acc
        else acc ++ [(LineDirectionKey.calculate line_from_new, line_from_new)]
      let line_from_existing := Point2D.setA (Point2D.ofCartesian 0 0)
        (pymod (kv.2.a + angle_step) π)
      if (findVal acc' (LineDirectionKey.calculate line_from_existing)).isSome then acc'
      else acc' ++ [(LineDirectionKey.calculate line_from_existing, line_from_existing)])
    []

/-- `infer_next_symmetric(lines, new_symmetry_line)`: record each derived
line as confirmed unless its key is already in the confirmed map (the
`contains(new_line, False)` guard checks only the confirmed side). -/
noncomputable def infer_next_symmetric (lines : SymmetryLineSet)
    (new_symmetry_line : Point2D) : SymmetryLineSet :=
  (inferNewLines lines new_symmetry_line).foldl
    (fun ls kv =>
      if ls.contains kv.2 false then ls else ls.add kv.2 true)
    lines

/-- One iteration of candidate pass 1 (the point-to-barycenter loop of
`find_symmetry`). -/
noncomputable def pass1Step (ps : PointSet) (lines : SymmetryLineSet)
    (p : Point) : SymmetryLineSet :=
  if (Point2D.sub p.location ps.barycenter).r < EPSILON then lines
  else
    let line := Point2D.sub ps.barycenter p.location
    if lines.contains line then lines
    else
      let symmetry := is_symmetric (partitionByColor ps.get) line ps.barycenter
      let lines' := if symmetry then infer_next_symmetric lines line else lines
      lines'.add line symmetry

/-- Candidate pass 1 of `find_symmetry`. -/
noncomputable def pass1 (ps : PointSet) : SymmetryLineSet :=
  ps.get.foldl (pass1Step ps) SymmetryLineSet.empty

/-- The unordered index pairs `(a, b)` with `a < b` visited by the double
loop of candidate pass 2, in visit order. -/
def allPairs : List Point → List (Point × Point)
  | [] => []
  | p :: rest => (rest.map fun q => (p, q)) ++ allPairs rest

/-- One iteration of candidate pass 2 (one pair of equidistant points). -/
noncomputable def pass2Step (ps : PointSet) (lines : SymmetryLineSet)
    (pq : Point × Point) : SymmetryLineSet :=
  let line := create_bisector_line pq.1.location pq.2.location ps.barycenter
  if lines.contains line then lines
  else
    let symmetric := is_symmetric (partitionByColor ps.get) line ps.barycenter
    let lines' := if symmetric then infer_next_symmetric lines line else lines
    lines'.add line symmetric

/-- Candidate pass 2 of `find_symmetry`: all pairs within each shell with at
least two members (singleton blocks are skipped). -/
noncomputable def pass2 (ps : PointSet) (lines : SymmetryLineSet) :
    SymmetryLineSet :=
  (partitionByColor ps.get).foldl
    (fun ls blk =>
      if blk.2.length = 1 then ls
      else (allPairs blk.2).foldl (pass2Step ps) ls)
    lines

/-- The `SymmetryLineSet` held by `find_symmetry` after both candidate
passes (pass 2 gated on an even point count). -/
noncomputable def find_symmetry_lines (ps : PointSet) : SymmetryLineSet :=
  let lines := pass1 ps
  if ps.size % 2 = 0 then pass2 ps lines else lines

/-- `find_symmetry(points)`: the ordered confirmed direction keys and the
per-direction endpoint dictionary. -/
noncomputable def find_symmetry (ps : PointSet) :
    List ℝ × List (Point2D × List Point2D) :=
  let lines := find_symmetry_lines ps
  (lines.get_symmetric_directions,
    create_symmetry_lines_endpoints ps.barycenter ps.radius
      lines.get_symmetric_lines)

end PointSetSymmetryAnalyzer

/-! Arithmetic facts about the embedded Python primitives. -/

lemma eps_pos : (0 : ℝ) < EPSILON := by norm_num [EPSILON]

lemma pyround_intCast (n : ℤ) : pyround (n : ℝ) = n := by
  simp [pyround, Int.fract_intCast, Int.floor_intCast]

lemma pyround_eq (n : ℤ) (x : ℝ) (h1 : (n : ℝ) - 1 / 2 < x)
    (h2 : x < (n : ℝ) + 1 / 2) : pyround x = n := by
  rcases le_or_lt (n : ℝ) x with h | h
  · have hf : ⌊x⌋ = n := by
      rw [Int.floor_eq_iff]
      refine ⟨h, ?_⟩
      push_cast
      linarith
    have hfr : Int.fract x < 1 / 2 := by
      rw [Int.fract, hf]; linarith
    rw [pyround, if_pos hfr]
    exact hf
  · have hf : ⌊x⌋ = n - 1 := by
      rw [Int.floor_eq_iff]
      constructor
      · push_cast; linarith
      · push_cast; linarith
    have hfr : 1 / 2 < Int.fract x := by
      rw [Int.fract, hf]; push_cast; linarith
    rw [pyround, if_neg (by linarith), if_pos hfr, hf]
    ring

lemma pyround_eq_zero (x : ℝ) (h : |x| ≤ 1 / 2) : pyround x = 0 := by
  rcases eq_or_lt_of_le h with heq | hlt
  · have hb : (0 : ℝ) ≤ 1 / 2 := by norm_num
    rcases (abs_eq hb).mp heq with h1 | h1
    · have hf : ⌊x⌋ = 0 := by rw [Int.floor_eq_iff]; norm_num [h1]
      have hfr : Int.fract x = 1 / 2 := by rw [Int.fract, hf, h1]; norm_num
      rw [pyround, if_neg (by rw [hfr]; norm_num), if_neg (by rw [hfr]; norm_num),
        if_pos (by rw [hf]; exact even_zero)]
      exact hf
    · have hf : ⌊x⌋ = -1 := by rw [Int.floor_eq_iff]; norm_num [h1]
      have hfr : Int.fract x = 1 / 2 := by
        rw [Int.fract, hf, h1]; push_cast; norm_num
      rw [pyround, if_neg (by rw [hfr]; norm_num), if_neg (by rw [hfr]; norm_num),
        if_neg (by rw [hf]; decide)]
      rw [hf]
      norm_num
  · have hx := abs_lt.mp hlt
    exact pyround_eq 0 x (by push_cast; linarith [hx.1]) (by push_cast; linarith [hx.2])

lemma pymod_eq_self {x y : ℝ} (h0 : 0 ≤ x) (h1 : x < y) : pymod x y = x := by
  have hy : 0 < y := lt_of_le_of_lt h0 h1
  have hfl : ⌊x / y⌋ = 0 := by
    rw [Int.floor_eq_iff]
    constructor
    · push_cast
      positivity
    · rw [show ((0 : ℤ) : ℝ) + 1 = 1 by norm_num, div_lt_one hy]
      linarith
  simp [pymod, hfl]

lemma pymod_add_int_mul {x y : ℝ} (hy : y ≠ 0) (k : ℤ) :
    pymod (x + k * y) y = pymod x y := by
  have hdiv : (x + k * y) / y = x / y + k := by field_simp
  rw [pymod, pymod, hdiv, Int.floor_add_int]
  push_cast
  ring

lemma pymod_eq_add {x y : ℝ} (hy : 0 < y) (h0 : -y ≤ x) (h1 : x < 0) :
    pymod x y = x + y := by
  have h := pymod_add_int_mul (x := x) hy.ne' 1
  push_cast at h
  rw [one_mul] at h
  rw [← h, pymod_eq_self (by linarith) (by linarith)]

lemma pymod_eq_sub {x y : ℝ} (hy : 0 < y) (h0 : y ≤ x) (h1 : x < 2 * y) :
    pymod x y = x - y := by
  have h := pymod_add_int_mul (x := x - y) hy.ne' 1
  push_cast at h
  rw [one_mul, sub_add_cancel] at h
  rw [h, pymod_eq_self (by linarith) (by linarith)]

lemma pymod_nonneg {x y : ℝ} (hy : 0 < y) : 0 ≤ pymod x y := by
  rw [pymod, sub_nonneg]
  calc y * ⌊x / y⌋ ≤ y * (x / y) := by
        have := Int.floor_le (x / y)
        nlinarith
    _ = x := by field_simp

lemma pymod_lt_right {x y : ℝ} (hy : 0 < y) : pymod x y < y := by
  rw [pymod, sub_lt_iff_lt_add]
  have h := Int.lt_floor_add_one (x / y)
  calc x = y * (x / y) := by field_simp
    _ < y * (⌊x / y⌋ + 1) := by nlinarith
    _ = y + y * ⌊x / y⌋ := by ring

lemma pymod_lt_iff {x y e : ℝ} (hy : 0 < y) (he : e ≤ y) :
    pymod x y < e ↔ ∃ k : ℤ, (k : ℝ) * y ≤ x ∧ x < k * y + e := by
  constructor
  · intro h
    refine ⟨⌊x / y⌋, ?_, ?_⟩
    · calc (⌊x / y⌋ : ℝ) * y ≤ x / y * y := by
            have := Int.floor_le (x / y)
            nlinarith
        _ = x := by field_simp
    · rw [pymod] at h
      nlinarith [h]
  · rintro ⟨k, hk1, hk2⟩
    have hf : ⌊x / y⌋ = k := by
      rw [Int.floor_eq_iff]
      constructor
      · rw [le_div_iff hy]; linarith
      · push_cast
        rw [div_lt_iff hy]
        nlinarith
    rw [pymod, hf]
    nlinarith

/-! The C1 characterization of `SymmetryLineValidator.is_symmetric`. -/

/-- A point coinciding with the barycenter within `EPSILON` (the points the
validator excludes from the count entirely). -/
noncomputable def coincident (barycenter : Point2D) (p : Point) : Bool :=
  decide ((Point2D.sub p.location barycenter).r < EPSILON)

/-- The projected-distance key the validator collects for a non-aligned
point. -/
noncomputable def projKey (line barycenter : Point2D) (p : Point) : ℝ :=
  SymmetryLineValidator.get_projected_distance_key p.distance_barycenter
    ((Point2D.sub p.location barycenter).a - line.a)

lemma symFold_spec (line barycenter : Point2D) :
    ∀ (pts : List Point) (c o : ℕ) (ks : List ℝ), ks.Nodup →
      (pts.foldl (SymmetryLineValidator.symStep line barycenter) (c, o, ks)).1 =
          c + pts.countP (coincident barycenter) ∧
        (pts.foldl (SymmetryLineValidator.symStep line barycenter) (c, o, ks)).2.1 =
          o + (pts.filter fun p => !coincident barycenter p).countP
            (fun p => SymmetryLineValidator.is_aligned p line barycenter) ∧
        (pts.foldl (SymmetryLineValidator.symStep line barycenter) (c, o, ks)).2.2.Nodup ∧
        (pts.foldl (SymmetryLineValidator.symStep line barycenter) (c, o, ks)).2.2.toFinset =
          ks.toFinset ∪
            (((pts.filter fun p => !coincident barycenter p).filter
              fun p => !SymmetryLineValidator.is_aligned p line barycenter).map
              (projKey line barycenter)).toFinset
  | [], c, o, ks, h => by simp [h]
  | p :: rest, c, o, ks, h => by
    rw [List.foldl_cons]
    by_cases h1 : (Point2D.sub p.location barycenter).r < EPSILON
    · have hc : coincident barycenter p = true := by simp [coincident, h1]
      have hstep : SymmetryLineValidator.symStep line barycenter (c, o, ks) p =
          (c + 1, o, ks) := by
        simp [SymmetryLineValidator.symStep, h1]
      rw [hstep]
      obtain ⟨i1, i2, i3, i4⟩ := symFold_spec line barycenter rest (c + 1) o ks h
      refine ⟨?_, ?_, i3, ?_⟩
      · rw [i1, List.countP_cons, hc]
        simp
        omega
      · rw [i2, List.filter_cons, hc]
        simp
      · rw [i4, List.filter_cons, hc]
        simp
    · have hc : coincident barycenter p = false := by simp [coincident, h1]
      by_cases h2 : SymmetryLineValidator.is_aligned p line barycenter = true
      · have hstep : SymmetryLineValidator.symStep line barycenter (c, o, ks) p =
            (c, o + 1, ks) := by
          simp [SymmetryLineValidator.symStep, h1, h2]
        rw [hstep]
        obtain ⟨i1, i2, i3, i4⟩ := symFold_spec line barycenter rest c (o + 1) ks h
        refine ⟨?_, ?_, i3, ?_⟩
        · rw [i1, List.countP_cons, hc]
          simp
        · rw [i2, List.filter_cons, hc]
          simp only [Bool.not_false, if_pos]
          rw [List.countP_cons, h2]
          simp
          omega
        · rw [i4, List.filter_cons, hc]
          simp only [Bool.not_false, if_pos]
          rw [List.filter_cons, h2]
          simp
      · have h2' : SymmetryLineValidator.is_aligned p line barycenter = false :=
          Bool.eq_false_iff.mpr h2
        have hkdef : projKey line barycenter p =
            SymmetryLineValidator.get_projected_distance_key p.distance_barycenter
              ((Point2D.sub p.location barycenter).a - line.a) := rfl
        by_cases h3 : projKey line barycenter p ∈ ks
        · have h3' := h3
          rw [hkdef] at h3'
          have hstep : SymmetryLineValidator.symStep line barycenter (c, o, ks) p =
              (c, o, ks) := by
            simp [SymmetryLineValidator.symStep, h1, h2, h3']
          rw [hstep]
          obtain ⟨i1, i2, i3, i4⟩ := symFold_spec line barycenter rest c o ks h
          refine ⟨?_, ?_, i3, ?_⟩
          · rw [i1, List.countP_cons, hc]
            simp
          · rw [i2, List.filter_cons, hc]
            simp only [Bool.not_false, if_pos]
            rw [List.countP_cons, h2']
            simp
          · rw [i4, List.filter_cons, hc]
            simp only [Bool.not_false, if_pos]
            rw [List.filter_cons, h2']
            simp only [Bool.not_false, if_pos]
            rw [List.map_cons, List.toFinset_cons]
            rw [Finset.union_insert, Finset.insert_eq_self.mpr
              (Finset.mem_union_left _ (List.mem_toFinset.mpr h3))]
        · have h3' := h3
          rw [hkdef] at h3'
          have hstep : SymmetryLineValidator.symStep line barycenter (c, o, ks) p =
              (c, o, ks ++ [projKey line barycenter p]) := by
            simp [SymmetryLineValidator.symStep, h1, h2, h3', hkdef]
          rw [hstep]
          have hnodup : (ks ++ [projKey line barycenter p]).Nodup := by
            rw [List.nodup_append]
            exact ⟨h, List.nodup_singleton _, by simp [List.disjoint_left, h3]⟩
          obtain ⟨i1, i2, i3, i4⟩ :=
            symFold_spec line barycenter rest c o (ks ++ [projKey line barycenter p]) hnodup
          refine ⟨?_, ?_, i3, ?_⟩
          · rw [i1, List.countP_cons, hc]
            simp
          · rw [i2, List.filter_cons, hc]
            simp only [Bool.not_false, if_pos]
            rw [List.countP_cons, h2']
            simp
          · rw [i4, List.filter_cons, hc]
            simp only [Bool.not_false, if_pos]
            rw [List.filter_cons, h2']
            simp only [Bool.not_false, if_pos]
            rw [List.map_cons, List.toFinset_cons]
            rw [List.toFinset_append]
            simp only [List.toFinset_cons, List.toFinset_nil, insert_emptyc_eq]
            rw [Finset.union_assoc, Finset.insert_eq]

/-- The claim C1 restated declaratively: the points considered are those not
coinciding with the barycenter; among them the aligned ones are counted; the
rest contribute their projected-distance keys. -/
theorem isSymmetric_iff_pairing_count (pts : List Point) (line barycenter : Point2D) :
    SymmetryLineValidator.is_symmetric pts line barycenter = true ↔
      2 * (((pts.filter fun p => !coincident barycenter p).filter
            fun p => !SymmetryLineValidator.is_aligned p line barycenter).map
              (projKey line barycenter)).toFinset.card =
        (pts.filter fun p => !coincident barycenter p).length -
          ((pts.filter fun p => !coincident barycenter p).filter
            fun p => SymmetryLineValidator.is_aligned p line barycenter).length := by
  unfold SymmetryLineValidator.is_symmetric
  obtain ⟨i1, i2, i3, i4⟩ :=
    symFold_spec line barycenter pts 0 0 [] List.nodup_nil
  simp only [decide_eq_true_eq]
  have hlen : (pts.foldl (SymmetryLineValidator.symStep line barycenter)
      (0, 0, [])).2.2.length =
      (((pts.filter fun p => !coincident barycenter p).filter
        fun p => !SymmetryLineValidator.is_aligned p line barycenter).map
          (projKey line barycenter)).toFinset.card := by
    rw [← List.toFinset_card_of_nodup i3, i4]
    simp
  rw [hlen, i1, i2]
  have hsplit := List.length_eq_countP_add_countP (l := pts) (p := coincident barycenter)
  simp only [List.countP_eq_length_filter] at hsplit ⊢
  simp only [decide_not, Bool.decide_eq_true] at hsplit
  omega

/-! Claim C8: the even-count gate on candidate pass 2. -/

lemma addToBlocks_nonempty (acc : List (ℕ × List Point)) (p : Point)
    (h : ∀ blk ∈ acc, blk.2 ≠ []) :
    ∀ blk ∈ addToBlocks acc p, blk.2 ≠ [] := by
  induction acc with
  | nil =>
    intro blk hblk
    rw [addToBlocks, List.mem_singleton] at hblk
    subst hblk
    simp
  | cons hd tl ih =>
    intro blk hblk
    rw [addToBlocks] at hblk
    by_cases hcol : p.color = hd.1
    · rw [if_pos hcol] at hblk
      rcases List.mem_cons.mp hblk with h1 | h1
      · simp [h1]
      · exact h blk (List.mem_cons_of_mem _ h1)
    · rw [if_neg hcol] at hblk
      rcases List.mem_cons.mp hblk with h1 | h1
      · subst h1
        exact h _ (List.mem_cons_self _ _)
      · exact ih (fun b hb => h b (List.mem_cons_of_mem _ hb)) blk h1

lemma partitionByColor_nonempty (pts : List Point) :
    ∀ blk ∈ partitionByColor pts, blk.2 ≠ [] := by
  suffices h : ∀ acc, (∀ blk ∈ acc, blk.2 ≠ []) →
      ∀ blk ∈ pts.foldl addToBlocks acc, blk.2 ≠ [] by
    exact h [] (by simp)
  induction pts with
  | nil => intro acc hacc; simpa using hacc
  | cons p rest ih =>
    intro acc hacc
    rw [List.foldl_cons]
    exact ih _ (addToBlocks_nonempty acc p hacc)

lemma foldl_skip {α β : Type} (G : β → α → β) (cond : α → Prop)
    [DecidablePred cond] :
    ∀ (l : List α) (b : β),
      l.foldl (fun s x => if cond x then s else G s x) b =
        (l.filter fun x => !decide (cond x)).foldl G b
  | [], _ => rfl
  | x :: l, b => by
    by_cases h : cond x <;> simp [h, foldl_skip G cond l]

/-- Claim C8: candidate pass 2 runs exactly when the total point count is
even (otherwise only the point-to-barycenter pass runs), and pass 2
generates its pairwise-bisector candidates over precisely the shells with at
least two members. -/
theorem pass2_gated_on_even_size :
    (∀ ps : PointSet, PointSetSymmetryAnalyzer.find_symmetry_lines ps =
      if Even ps.size then
        PointSetSymmetryAnalyzer.pass2 ps (PointSetSymmetryAnalyzer.pass1 ps)
      else PointSetSymmetryAnalyzer.pass1 ps) ∧
    (∀ (ps : PointSet) (lines : SymmetryLineSet),
      PointSetSymmetryAnalyzer.pass2 ps lines =
        ((partitionByColor ps.get).filter fun blk => 1 < blk.2.length).foldl
          (fun ls blk => (PointSetSymmetryAnalyzer.allPairs blk.2).foldl
            (PointSetSymmetryAnalyzer.pass2Step ps) ls) lines) := by
  constructor
  · intro ps
    simp [PointSetSymmetryAnalyzer.find_symmetry_lines, Nat.even_iff]
  · intro ps lines
    rw [PointSetSymmetryAnalyzer.pass2,
      foldl_skip _ (fun blk : ℕ × List Point => blk.2.length = 1)]
    congr 1
    apply List.filter_congr
    intro blk hblk
    have hne := partitionByColor_nonempty ps.get blk hblk
    have : blk.2.length ≠ 0 := by
      intro hc
      exact hne (List.length_eq_zero.mp hc)
    cases hlen : blk.2.length with
    | zero => exact absurd hlen this
    | succ n =>
      cases n with
      | zero => simp [hlen]
      | succ m => simp [hlen]

/-! Claim C9: the endpoints dictionary is keyed by the direction objects. -/

/-- Claim C9 (code behavior): the keys of the dictionary built by
`create_symmetry_lines_endpoints` are the direction `Point2D` objects taken
from the confirmed map's values, not the canonical label strings, and each
is mapped to the segment `barycenter ± length·(cos a, sin a)`. -/
theorem endpoints_keyed_by_direction_object (barycenter : Point2D) (length : ℝ)
    (symmetry_directions : List (ℝ × Point2D)) :
    (PointSetSymmetryAnalyzer.create_symmetry_lines_endpoints barycenter length
        symmetry_directions).map Prod.fst = symmetry_directions.map Prod.snd ∧
    PointSetSymmetryAnalyzer.create_symmetry_lines_endpoints barycenter length
        symmetry_directions = symmetry_directions.map fun kv =>
      (kv.2,
        [Point2D.ofCartesian (barycenter.x + Real.cos kv.2.a * length)
          (barycenter.y + Real.sin kv.2.a * length),
         Point2D.ofCartesian (barycenter.x - Real.cos kv.2.a * length)
          (barycenter.y - Real.sin kv.2.a * length)]) := by
  constructor
  · rw [PointSetSymmetryAnalyzer.create_symmetry_lines_endpoints, List.map_map]
    rfl
  · rfl

/-! Claim C10: `find_symmetry` does not modify its input point set.  The
Python function only ever reads the point set through its accessor methods
(`get`, `size`, `barycenter`, `radius`) and the per-point dictionary fields;
to make this observable in the embedding, each accessor is threaded as a
state transition returning the (possibly updated) point set, and the whole
search is re-expressed in that state-passing form. -/

/-- `get()` as a state transition. -/
def PointSet.getS (ps : PointSet) : List Point × PointSet := (ps.points, ps)

/-- `size()` as a state transition. -/
def PointSet.sizeS (ps : PointSet) : ℕ × PointSet := (ps.points.length, ps)

/-- `barycenter()` as a state transition. -/
def PointSet.barycenterS (ps : PointSet) : Point2D × PointSet :=
  (ps.set_barycenter, ps)

/-- `radius()` as a state transition. -/
def PointSet.radiusS (ps : PointSet) : ℝ × PointSet := (ps.set_radius, ps)

namespace PointSetSymmetryAnalyzer

/-- One pass-1 iteration in state-passing form. -/
noncomputable def pass1StepSt (st : SymmetryLineSet × PointSet) (p : Point) :
    SymmetryLineSet × PointSet :=
  let (bc, ps) := st.2.barycenterS
  if (Point2D.sub p.location bc).r < EPSILON then (st.1, ps)
  else
    let line := Point2D.sub bc p.location
    if st.1.contains line then (st.1, ps)
    else
      let (pts, ps) := ps.getS
      let symmetry := is_symmetric (partitionByColor pts) line bc
      let lines' := if symmetry then infer_next_symmetric st.1 line else st.1
      (lines'.add line symmetry, ps)

/-- One pass-2 iteration in state-passing form. -/
noncomputable def pass2StepSt (st : SymmetryLineSet × PointSet)
    (pq : Point × Point) : SymmetryLineSet × PointSet :=
  let (bc, ps) := st.2.barycenterS
  let line := create_bisector_line pq.1.location pq.2.location bc
  if st.1.contains line then (st.1, ps)
  else
    let (pts, ps) := ps.getS
    let symmetric := is_symmetric (partitionByColor pts) line bc
    let lines' := if symmetric then infer_next_symmetric st.1 line else st.1
    (lines'.add line symmetric, ps)

/-- `find_symmetry` in state-passing form: the same computation with every
access to the point set threaded through the state. -/
noncomputable def find_symmetry_st (ps : PointSet) :
    (List ℝ × List (Point2D × List Point2D)) × PointSet :=
  let s0 := ps.getS
  let s1 := s0.1.foldl pass1StepSt (SymmetryLineSet.empty, s0.2)
  let s2 := s1.2.sizeS
  let s3 :=
    if s2.1 % 2 = 0 then
      let sg := s2.2.getS
      (partitionByColor sg.1).foldl
        (fun st blk =>
          if blk.2.length = 1 then st
          else (allPairs blk.2).foldl pass2StepSt st)
        (s1.1, sg.2)
    else (s1.1, s2.2)
  let s4 := s3.2.barycenterS
  let s5 := s4.2.radiusS
  ((s3.1.get_symmetric_directions,
    create_symmetry_lines_endpoints s4.1 s5.1 s3.1.get_symmetric_lines), s5.2)

lemma pass1StepSt_preserves (st : SymmetryLineSet × PointSet) (p : Point) :
    (pass1StepSt st p).2 = st.2 := by
  rw [pass1StepSt]
  by_cases h1 : (Point2D.sub p.location st.2.set_barycenter).r < EPSILON
  · simp [PointSet.barycenterS, h1]
  · by_cases h2 : st.1.contains (Point2D.sub st.2.set_barycenter p.location) = true <;>
      simp [PointSet.barycenterS, PointSet.getS, h1, h2]

lemma pass2StepSt_preserves (st : SymmetryLineSet × PointSet)
    (pq : Point × Point) : (pass2StepSt st pq).2 = st.2 := by
  rw [pass2StepSt]
  by_cases h2 : st.1.contains
      (create_bisector_line pq.1.location pq.2.location st.2.set_barycenter) = true <;>
    simp [PointSet.barycenterS, PointSet.getS, h2]

lemma foldl_preserves {α β σ : Type} (f : β × σ → α → β × σ)
    (hf : ∀ st a, (f st a).2 = st.2) :
    ∀ (l : List α) (st : β × σ), (l.foldl f st).2 = st.2
  | [], _ => rfl
  | a :: l, st => by
    rw [List.foldl_cons, foldl_preserves f hf l (f st a), hf]

end PointSetSymmetryAnalyzer

/-- Claim C10: after `find_symmetry` returns, the point set is unchanged:
its point list (hence every point's identifier, location, shell label and
distance), its barycenter and its radius are equal to their values before
the call. -/
theorem find_symmetry_preserves_pointset (ps : PointSet) :
    (PointSetSymmetryAnalyzer.find_symmetry_st ps).2.points = ps.points ∧
    (PointSetSymmetryAnalyzer.find_symmetry_st ps).2.set_barycenter =
      ps.set_barycenter ∧
    (PointSetSymmetryAnalyzer.find_symmetry_st ps).2.set_radius = ps.set_radius := by
  have hps : (PointSetSymmetryAnalyzer.find_symmetry_st ps).2 = ps := by
    rw [PointSetSymmetryAnalyzer.find_symmetry_st]
    simp only [PointSet.getS, PointSet.sizeS, PointSet.barycenterS, PointSet.radiusS]
    have h1 := PointSetSymmetryAnalyzer.foldl_preserves
      PointSetSymmetryAnalyzer.pass1StepSt
      PointSetSymmetryAnalyzer.pass1StepSt_preserves ps.points
      (SymmetryLineSet.empty, ps)
    by_cases hn : ps.points.length % 2 = 0
    · rw [h1, if_pos hn]
      have h2 := PointSetSymmetryAnalyzer.foldl_preserves
        (fun (st : SymmetryLineSet × PointSet) blk =>
          if blk.2.length = 1 then st
          else (PointSetSymmetryAnalyzer.allPairs blk.2).foldl
            PointSetSymmetryAnalyzer.pass2StepSt st)
        (fun st blk => by
          by_cases hb : blk.2.length = 1
          · simp [hb]
          · simp only [if_neg hb]
            exact PointSetSymmetryAnalyzer.foldl_preserves _
              PointSetSymmetryAnalyzer.pass2StepSt_preserves _ st)
        (partitionByColor ps.points)
      rw [h2]
    · rw [h1, if_neg hn]
  exact ⟨by rw [hps], by rw [hps], by rw [hps]⟩

/-! Claim C5: the shell-assignment rule. -/

/-- The shell labels produced by the code's walk, re-expressed greedily:
each shell is the maximal run of successive points whose distances lie
within `EPSILON` of the distance of the shell's first point (the reference
stored in `prev_distance`, which is updated only when the counter is
incremented). -/
noncomputable def spanWalk (prev : ℝ) (c : ℕ) (ds : List ℝ) : List ℕ :=
  if h : (ds.dropWhile fun x => decide (|prev - x| ≤ EPSILON)) = [] then
    ds.map fun _ => c
  else
    ((ds.takeWhile fun x => decide (|prev - x| ≤ EPSILON)).map fun _ => c) ++
      ((c + 1) ::
        spanWalk ((ds.dropWhile fun x => decide (|prev - x| ≤ EPSILON)).head h)
          (c + 1) ((ds.dropWhile fun x => decide (|prev - x| ≤ EPSILON)).tail))
termination_by ds.length
decreasing_by
  have hle := (List.dropWhile_sublist (l := ds)
    (fun x => decide (|prev - x| ≤ EPSILON))).length_le
  have hpos : 0 < (ds.dropWhile fun x => decide (|prev - x| ≤ EPSILON)).length :=
    List.length_pos.mpr h
  simp only [List.length_tail]
  omega

/-- The reference-distance shell labelling applied to a full distance list:
the first point seeds shell `1`. -/
noncomputable def refLabels : List ℝ → List ℕ
  | [] => []
  | d :: ds => 1 :: spanWalk d 1 ds

lemma spanWalk_nil (prev : ℝ) (c : ℕ) : spanWalk prev c [] = [] := by
  rw [spanWalk]
  simp

lemma spanWalk_cons_within (prev d : ℝ) (c : ℕ) (ds : List ℝ)
    (h : |prev - d| ≤ EPSILON) :
    spanWalk prev c (d :: ds) = c :: spanWalk prev c ds := by
  have hd2 : List.dropWhile (fun x => decide (|prev - x| ≤ EPSILON)) (d :: ds) =
      List.dropWhile (fun x => decide (|prev - x| ≤ EPSILON)) ds := by
    rw [List.dropWhile_cons]
    simp [h]
  have ht2 : List.takeWhile (fun x => decide (|prev - x| ≤ EPSILON)) (d :: ds) =
      d :: List.takeWhile (fun x => decide (|prev - x| ≤ EPSILON)) ds := by
    rw [List.takeWhile_cons]
    simp [h]
  by_cases hdrop : (ds.dropWhile fun x => decide (|prev - x| ≤ EPSILON)) = []
  · rw [spanWalk, spanWalk]
    rw [dif_pos (by rw [hd2]; exact hdrop), dif_pos hdrop]
    simp
  · rw [spanWalk, spanWalk]
    rw [dif_neg (by rw [hd2]; exact hdrop), dif_neg hdrop]
    rw [ht2]
    simp only [hd2, List.map_cons, List.cons_append]

lemma spanWalk_cons_beyond (prev d : ℝ) (c : ℕ) (ds : List ℝ)
    (h : ¬|prev - d| ≤ EPSILON) :
    spanWalk prev c (d :: ds) = (c + 1) :: spanWalk d (c + 1) ds := by
  have hd2 : List.dropWhile (fun x => decide (|prev - x| ≤ EPSILON)) (d :: ds) =
      d :: ds := by
    rw [List.dropWhile_cons]
    simp [h]
  have ht2 : List.takeWhile (fun x => decide (|prev - x| ≤ EPSILON)) (d :: ds) =
      [] := by
    rw [List.takeWhile_cons]
    simp [h]
  rw [spanWalk, dif_neg (by rw [hd2]; simp)]
  rw [ht2]
  simp only [hd2, List.map_nil, List.nil_append, List.head_cons, List.tail_cons]

lemma colorWalk_map_eq :
    ∀ (ds : List (ℕ × ℝ)) (prev : ℝ) (c : ℕ),
      (PointSet.colorWalk prev c ds).map (fun t => t.2.1) =
        spanWalk prev c (ds.map Prod.snd)
  | [], prev, c => by simp [PointSet.colorWalk, spanWalk_nil]
  | (i, d) :: rest, prev, c => by
    by_cases h : EPSILON < |prev - d|
    · rw [PointSet.colorWalk, if_pos h]
      rw [List.map_cons, List.map_cons, spanWalk_cons_beyond _ _ _ _ (not_le.mpr h)]
      rw [colorWalk_map_eq rest d (c + 1)]
    · rw [PointSet.colorWalk, if_neg h]
      rw [List.map_cons, List.map_cons, spanWalk_cons_within _ _ _ _ (not_lt.mp h)]
      rw [colorWalk_map_eq rest prev c]

/-- Amended claim C5: the walked shell labels are produced by a counter that
starts at `1` and is incremented exactly when the current distance differs
by more than `EPSILON` from the distance of the first point of the current
shell (the stored reference), not from the immediately preceding
distance. -/
theorem shell_labels_by_reference_distance (l : List (ℕ × ℝ)) :
    (PointSet.colorAssignments l).map (fun t => t.2.1) =
      refLabels (l.map Prod.snd) := by
  cases l with
  | nil => rfl
  | cons hd tl =>
    obtain ⟨i, d⟩ := hd
    rw [PointSet.colorAssignments, List.map_cons, List.map_cons, refLabels]
    rw [colorWalk_map_eq]

/-- Modelled from the spec: the shell-assignment rule the spec (section 4.1
step 5) and claim C5 describe, with the gap taken against the immediately
preceding distance at every step (`prev_distance` updated on every
iteration), so that chains of small adjacent gaps keep extending a shell. -/
noncomputable def adjacentWalk : ℝ → ℕ → List ℝ → List ℕ
  | _, _, [] => []
  | prev, c, d :: ds =>
    if EPSILON < |prev - d| then (c + 1) :: adjacentWalk d (c + 1) ds
    else c :: adjacentWalk d c ds

/-- Modelled from the spec: the full adjacent-gap shell labelling claimed by
C5, applied to the distances in descending sorted order. -/
noncomputable def colorsAdjacentSpec : List ℝ → List ℕ
  | [] => []
  | d :: ds => 1 :: adjacentWalk d 1 ds

/-- The concrete counterexample input for claim C5: four collinear points
whose sorted distances to the barycenter are `1`, `1 - 9·10⁻⁷`,
`1 - 9·10⁻⁷`, `1 - 18·10⁻⁷`, with every adjacent gap at most `EPSILON` but
total spread beyond it. -/
noncomputable def ce5 : List (ℝ × ℝ) :=
  [(1, 0), (-(1 - 9 / 10 ^ 7), 0), (1 - 18 / 10 ^ 7, 0), (-(1 - 9 / 10 ^ 7), 0)]

/-! Evaluation helpers for `Complex.abs` and `Complex.arg` on concrete
points (the embedded `hypot` and `atan2`). -/

lemma complex_mk_eq (x y : ℝ) : (⟨x, y⟩ : ℂ) = x + y * Complex.I :=
  Complex.mk_eq_add_mul_I x y

lemma mk_zero_eq : (⟨0, 0⟩ : ℂ) = 0 := by
  rw [complex_mk_eq]
  simp

lemma abs_mk_zero : Complex.abs ⟨0, 0⟩ = 0 := by
  rw [mk_zero_eq]
  simp

lemma arg_mk_zero : Complex.arg ⟨0, 0⟩ = 0 := by
  rw [mk_zero_eq]
  exact Complex.arg_zero

lemma abs_mk_real (x : ℝ) : Complex.abs ⟨x, 0⟩ = |x| := by
  rw [show (⟨x, 0⟩ : ℂ) = (x : ℂ) by rw [complex_mk_eq]; simp]
  exact Complex.abs_ofReal x

lemma mk_cos_sin (r θ : ℝ) : (⟨r * Real.cos θ, r * Real.sin θ⟩ : ℂ) =
    (r : ℂ) * (Real.cos θ + Real.sin θ * Complex.I) := by
  rw [complex_mk_eq]
  push_cast
  ring

lemma abs_mk_cos_sin (r θ : ℝ) (hr : 0 ≤ r) :
    Complex.abs ⟨r * Real.cos θ, r * Real.sin θ⟩ = r := by
  rw [mk_cos_sin, map_mul, Complex.abs_ofReal, Complex.ofReal_cos,
    Complex.ofReal_sin, Complex.abs_cos_add_sin_mul_I, mul_one, abs_of_nonneg hr]

lemma arg_mk_cos_sin (r θ : ℝ) (hr : 0 < r) (h1 : -π < θ) (h2 : θ ≤ π) :
    Complex.arg ⟨r * Real.cos θ, r * Real.sin θ⟩ = θ := by
  rw [mk_cos_sin, Complex.arg_real_mul _ hr, Complex.ofReal_cos,
    Complex.ofReal_sin, Complex.arg_cos_add_sin_mul_I ⟨h1, h2⟩]

lemma ofCartesian_zero : Point2D.ofCartesian 0 0 = ⟨0, 0, 0, 0⟩ := by
  rw [Point2D.ofCartesian, abs_mk_zero, arg_mk_zero]

lemma ofCartesian_polar (r θ : ℝ) (hr : 0 < r) (h1 : -π < θ) (h2 : θ ≤ π) :
    Point2D.ofCartesian (r * Real.cos θ) (r * Real.sin θ) =
      ⟨r * Real.cos θ, r * Real.sin θ, r, θ⟩ := by
  rw [Point2D.ofCartesian, abs_mk_cos_sin r θ hr.le, arg_mk_cos_sin r θ hr h1 h2]

/-! Evaluation of the annotation pipeline on `ce5`. -/

lemma ce5_bc : PointSet.barycenterOf ce5 = ⟨0, 0, 0, 0⟩ := by
  have hsum : ce5.foldl
      (fun acc c => Point2D.add acc (Point2D.ofCartesian c.1 c.2))
      (Point2D.ofCartesian 0 0) = Point2D.ofCartesian 0 0 := by
    simp only [ce5, List.foldl_cons, List.foldl_nil, Point2D.add,
      Point2D.ofCartesian]
    norm_num
  rw [PointSet.barycenterOf, hsum, ofCartesian_zero, Point2D.setR]
  norm_num

lemma ce5_pairs : PointSet.distPairs ce5 =
    [(0, 1), (1, 1 - 9 / 10 ^ 7), (2, 1 - 18 / 10 ^ 7), (3, 1 - 9 / 10 ^ 7)] := by
  rw [PointSet.distPairs, ce5_bc]
  rw [ce5]
  simp only [List.enum, List.enumFrom, List.map_cons, List.map_nil,
    Point2D.sub, Point2D.ofCartesian]
  norm_num [abs_mk_real, abs_of_nonneg, abs_of_nonpos]

lemma ce5_sorted : PointSet.sortedDistPairs ce5 =
    [(0, 1), (1, 1 - 9 / 10 ^ 7), (3, 1 - 9 / 10 ^ 7), (2, 1 - 18 / 10 ^ 7)] := by
  rw [PointSet.sortedDistPairs, ce5_pairs]
  simp only [List.insertionSort, List.orderedInsert]
  norm_num

lemma ce5_gap_small : ¬(EPSILON < |(1 : ℝ) - (1 - 9 / 10 ^ 7)|) := by
  norm_num [EPSILON, abs_of_nonneg, abs_sub_le_iff]

lemma ce5_gap_large : EPSILON < |(1 : ℝ) - (1 - 18 / 10 ^ 7)| := by
  norm_num [EPSILON, lt_abs]

lemma ce5_assign : PointSet.colorAssignments
    [(0, 1), (1, 1 - 9 / 10 ^ 7), (3, 1 - 9 / 10 ^ 7), (2, 1 - 18 / 10 ^ 7)] =
    [(0, 1, 1), (1, 1, 1 - 9 / 10 ^ 7), (3, 1, 1 - 9 / 10 ^ 7),
      (2, 2, 1 - 18 / 10 ^ 7)] := by
  rw [PointSet.colorAssignments, PointSet.colorWalk, if_neg ce5_gap_small,
    PointSet.colorWalk, if_neg ce5_gap_small, PointSet.colorWalk,
    if_pos ce5_gap_large, PointSet.colorWalk]

/-- Claim C5 counterexample: on `ce5` the code assigns shell labels
`[1, 1, 2, 1]` (in input order), although under the claimed adjacent-gap
rule every gap in sorted order is at most `EPSILON`, so all four points
would share shell `1`; in particular the first and third points are joined
by a chain of adjacent gaps each at most `EPSILON` yet land in different
shells. -/
theorem shell_labels_not_adjacent_chained :
    (PointSet.mk' ce5).points.map Point.color = [1, 1, 2, 1] ∧
    colorsAdjacentSpec ((PointSet.sortedDistPairs ce5).map Prod.snd) =
      [1, 1, 1, 1] := by
  constructor
  · rw [PointSet.mk']
    simp only [ce5_sorted, ce5_assign]
    simp only [ce5, List.enum, List.enumFrom, List.map_cons, List.map_nil]
    simp [List.find?]
  · rw [ce5_sorted]
    simp only [List.map_cons, List.map_nil, colorsAdjacentSpec, adjacentWalk]
    rw [if_neg ce5_gap_small]
    have h2 : ¬(EPSILON < |(1 : ℝ) - 9 / 10 ^ 7 - (1 - 9 / 10 ^ 7)|) := by
      norm_num [EPSILON, abs_of_nonneg, abs_sub_le_iff]
    rw [if_neg h2]
    have h3 : ¬(EPSILON < |(1 : ℝ) - 9 / 10 ^ 7 - (1 - 18 / 10 ^ 7)|) := by
      norm_num [EPSILON, abs_of_nonneg, abs_sub_le_iff]
    rw [if_neg h3]

/-! Claim C7: the alignment test. -/

/-- The angle the validator computes between `(point - barycenter)` and the
line's direction. -/
noncomputable def angleToLine (line barycenter : Point2D) (p : Point) : ℝ :=
  (Point2D.sub p.location barycenter).a - line.a

lemma eps_le_pi : EPSILON ≤ π := by
  have := Real.pi_gt_three
  rw [EPSILON]
  linarith

/-- Amended claim C7: `isAligned` returns true iff the point coincides with
the barycenter within `EPSILON`, or the angle lies within `EPSILON` at or
above an integer multiple of `π`, or the angle is negative and lies within
`EPSILON` of an integer multiple of `π` on either side.  A positive angle
within `EPSILON` strictly below a multiple of `π` is not detected. -/
theorem isAligned_iff_one_sided (p : Point) (line barycenter : Point2D) :
    SymmetryLineValidator.is_aligned p line barycenter = true ↔
      ((Point2D.sub p.location barycenter).r < EPSILON ∨
        (∃ k : ℤ, (k : ℝ) * π ≤ angleToLine line barycenter p ∧
          angleToLine line barycenter p < k * π + EPSILON) ∨
        (angleToLine line barycenter p < 0 ∧
          ∃ k : ℤ, |angleToLine line barycenter p - k * π| < EPSILON)) := by
  have hpi : (0 : ℝ) < π := Real.pi_pos
  set t := angleToLine line barycenter p with ht
  rw [SymmetryLineValidator.is_aligned]
  by_cases hr : (Point2D.sub p.location barycenter).r < EPSILON
  · simp [hr]
  · rw [if_neg hr]
    simp only [decide_eq_true_eq]
    have hshape : ((Point2D.sub p.location barycenter).a - line.a) = t := rfl
    rw [hshape]
    have habs1 : |pymod t π| = pymod t π := abs_of_nonneg (pymod_nonneg hpi)
    have habs2 : |pymod (|t| - π) π| = pymod (|t| - π) π :=
      abs_of_nonneg (pymod_nonneg hpi)
    have hshift : pymod (|t| - π) π = pymod |t| π := by
      have := pymod_add_int_mul (x := |t|) hpi.ne' (-1)
      push_cast at this
      rw [show |t| + -1 * π = |t| - π by ring] at this
      exact this
    rw [habs1, habs2, hshift]
    rw [pymod_lt_iff hpi eps_le_pi, pymod_lt_iff hpi eps_le_pi]
    constructor
    · rintro (⟨k, hk1, hk2⟩ | ⟨k, hk1, hk2⟩)
      · exact Or.inr (Or.inl ⟨k, hk1, hk2⟩)
      · rcases le_or_lt 0 t with hpos | hneg
        · rw [abs_of_nonneg hpos] at hk1 hk2
          exact Or.inr (Or.inl ⟨k, hk1, hk2⟩)
        · rw [abs_of_neg hneg] at hk1 hk2
          refine Or.inr (Or.inr ⟨hneg, ⟨-k, ?_⟩⟩)
          rw [abs_lt]
          push_cast
          constructor <;> linarith
    · rintro (hcoin | ⟨k, hk1, hk2⟩ | ⟨hneg, k, hk⟩)
      · exact absurd hcoin hr
      · exact Or.inl ⟨k, hk1, hk2⟩
      · rw [abs_lt] at hk
        rcases le_or_lt ((k : ℝ) * π) t with hge | hlt
        · exact Or.inl ⟨k, hge, by linarith [hk.2]⟩
        · refine Or.inr ⟨-k, ?_, ?_⟩
          · rw [abs_of_neg hneg]
            push_cast
            linarith
          · rw [abs_of_neg hneg]
            push_cast
            linarith [hk.1]

/-- The barycenter used in the claim C7 counterexample. -/
noncomputable def cb7 : Point2D := Point2D.ofCartesian 0 0

/-- The line used in the claim C7 counterexample: direction angle `0`. -/
noncomputable def cl7 : Point2D := Point2D.ofCartesian 1 0

/-- The point used in the claim C7 counterexample: at angle
`π - EPSILON / 2` from the barycenter, so within `EPSILON` of angle `π`
(slightly below it). -/
noncomputable def cp7 : Point :=
  { id := 0
    location := Point2D.ofCartesian (1 * Real.cos (π - EPSILON / 2))
      (1 * Real.sin (π - EPSILON / 2))
    color := 1
    distance_barycenter := 1 }

lemma arg_mk_one_zero : Complex.arg ⟨1, 0⟩ = 0 := by
  rw [show (⟨1, 0⟩ : ℂ) = 1 by rw [complex_mk_eq]; simp]
  exact Complex.arg_one

lemma cl7_a : cl7.a = 0 := by
  rw [cl7, Point2D.ofCartesian]
  exact arg_mk_one_zero

lemma cp7_sub : Point2D.sub cp7.location cb7 =
    ⟨1 * Real.cos (π - EPSILON / 2), 1 * Real.sin (π - EPSILON / 2), 1,
      π - EPSILON / 2⟩ := by
  have hpi := Real.pi_gt_three
  rw [cp7, cb7, Point2D.sub]
  simp only [Point2D.ofCartesian]
  rw [sub_zero, sub_zero]
  exact ofCartesian_polar 1 (π - EPSILON / 2) one_pos
    (by rw [EPSILON]; linarith) (by rw [EPSILON]; linarith)

/-- Claim C7 counterexample: the point `cp7` does not coincide with the
barycenter, and the angle between `(point - barycenter)` and the line is
within `EPSILON` of `π` (congruent to `π` within `EPSILON`), yet
`is_aligned` returns `false`: the test misses positive angles lying within
`EPSILON` below a multiple of `π`. -/
theorem isAligned_misses_angle_below_pi :
    SymmetryLineValidator.is_aligned cp7 cl7 cb7 = false ∧
    ¬((Point2D.sub cp7.location cb7).r < EPSILON) ∧
    |angleToLine cl7 cb7 cp7 - 1 * π| < EPSILON := by
  have hpi := Real.pi_gt_three
  have hpi2 := Real.pi_lt_315
  have heps : EPSILON = 1 / 1000000 := rfl
  have hr1 : (Point2D.sub cp7.location cb7).r = 1 := by rw [cp7_sub]
  have ha1 : (Point2D.sub cp7.location cb7).a = π - EPSILON / 2 := by
    rw [cp7_sub]
  have hangle : angleToLine cl7 cb7 cp7 = π - EPSILON / 2 := by
    rw [angleToLine, ha1, cl7_a, sub_zero]
  refine ⟨?_, ?_, ?_⟩
  · rw [SymmetryLineValidator.is_aligned, if_neg (by rw [hr1, heps]; norm_num)]
    simp only [decide_eq_false_iff_not]
    rw [ha1, cl7_a, sub_zero]
    have h1 : pymod (π - EPSILON / 2) π = π - EPSILON / 2 :=
      pymod_eq_self (by rw [heps]; linarith) (by rw [heps]; linarith)
    have habs : |π - EPSILON / 2| = π - EPSILON / 2 :=
      abs_of_nonneg (by rw [heps]; linarith)
    have h2 : pymod (|π - EPSILON / 2| - π) π = π - EPSILON / 2 := by
      rw [habs, show π - EPSILON / 2 - π = -(EPSILON / 2) by ring]
      rw [pymod_eq_add Real.pi_pos (by rw [heps]; linarith) (by rw [heps]; linarith)]
      ring
    rw [h1, h2, habs]
    rw [heps]
    push_neg
    constructor <;> linarith
  · rw [hr1, heps]
    norm_num
  · rw [hangle, heps]
    rw [show π - 1 / 1000000 / 2 - 1 * π = -(1 / 2000000) by ring]
    rw [abs_neg, abs_of_nonneg (by norm_num)]
    norm_num

/-! Claim C6: sense-independence of the canonical direction key. -/

lemma pymod_pi_pi : pymod π π = 0 := by
  rw [pymod_eq_sub Real.pi_pos le_rfl (by linarith [Real.pi_pos])]
  ring

lemma degrees_zero : degrees 0 = 0 := by
  rw [degrees]
  ring

lemma keyOfAngle_of_norm (a : ℝ)
    (h : |a| < EPSILON ∨ |π - a| < EPSILON) : keyOfAngle a = 0 := by
  rw [keyOfAngle]
  simp only [if_pos h]
  rw [add_zero, pymod_pi_pi, degrees_zero, zero_mul,
    show ((0 : ℝ) = ((0 : ℤ) : ℝ)) from by norm_num, pyround_intCast]
  norm_num

lemma keyOfAngle_of_plain (a : ℝ)
    (h : ¬(|a| < EPSILON ∨ |π - a| < EPSILON)) (h0 : 0 ≤ a) (h1 : a < π) :
    keyOfAngle a =
      (pyround (degrees a * MAX_PRECISION) : ℝ) / MAX_PRECISION := by
  rw [keyOfAngle]
  simp only [if_neg h]
  rw [pymod_eq_self h0 h1,
    pymod_eq_sub Real.pi_pos (by linarith) (by linarith),
    show π + a - π = a by ring, max_self]

lemma pyround_deg_small (t : ℝ) (h0 : 0 ≤ t) (h1 : t < EPSILON) :
    pyround (degrees t * MAX_PRECISION) = 0 := by
  have hpi := Real.pi_gt_three
  rw [EPSILON] at h1
  apply pyround_eq_zero
  rw [degrees, MAX_PRECISION]
  rw [abs_of_nonneg (by positivity)]
  rw [div_mul_eq_mul_div, div_le_iff Real.pi_pos]
  nlinarith

lemma keyOfAngle_opposite (t : ℝ) (ht0 : 0 < t) (ht1 : t < π) :
    keyOfAngle t = keyOfAngle (t - π) := by
  have hpi := Real.pi_gt_three
  have heps : EPSILON = 1 / 1000000 := rfl
  by_cases hsmall : t < EPSILON
  · rw [keyOfAngle_of_norm t (Or.inl (by rw [abs_of_nonneg ht0.le]; exact hsmall))]
    have hcond : ¬(|t - π| < EPSILON ∨ |π - (t - π)| < EPSILON) := by
      push_neg
      constructor
      · rw [abs_of_nonpos (by linarith)]
        rw [heps] at hsmall ⊢
        linarith
      · rw [abs_of_nonneg (by linarith)]
        rw [heps]
        linarith
    rw [keyOfAngle]
    simp only [if_neg hcond]
    rw [pymod_eq_add (x := t - π) Real.pi_pos (by linarith) (by linarith),
      show t - π + π = t by ring,
      pymod_eq_sub (x := π + t) Real.pi_pos (by linarith) (by linarith),
      show π + t - π = t by ring, max_self,
      pyround_deg_small t ht0.le hsmall]
    norm_num
  · by_cases hbig : π - t < EPSILON
    · rw [keyOfAngle_of_norm t (Or.inr (by rw [abs_of_nonneg (by linarith)]; exact hbig))]
      rw [keyOfAngle_of_norm (t - π) (Or.inl (by rw [abs_of_nonpos (by linarith)]; rw [show -(t - π) = π - t by ring]; exact hbig))]
    · have hcond1 : ¬(|t| < EPSILON ∨ |π - t| < EPSILON) := by
        push_neg
        rw [abs_of_nonneg ht0.le, abs_of_nonneg (by linarith)]
        exact ⟨not_lt.mp hsmall, not_lt.mp hbig⟩
      have hcond2 : ¬(|t - π| < EPSILON ∨ |π - (t - π)| < EPSILON) := by
        push_neg
        constructor
        · rw [abs_of_nonpos (by linarith), show -(t - π) = π - t by ring]
          exact not_lt.mp hbig
        · rw [abs_of_nonneg (by linarith)]
          rw [heps]
          linarith
      rw [keyOfAngle_of_plain t hcond1 ht0.le ht1]
      rw [keyOfAngle]
      simp only [if_neg hcond2]
      rw [pymod_eq_add (x := t - π) Real.pi_pos (by linarith) (by linarith),
        show t - π + π = t by ring,
        pymod_eq_sub (x := π + t) Real.pi_pos (by linarith) (by linarith),
        show π + t - π = t by ring, max_self]

lemma keyOfAngle_pi : keyOfAngle π = 0 :=
  keyOfAngle_of_norm π (Or.inr (by simp [eps_pos]))

lemma keyOfAngle_zero : keyOfAngle 0 = 0 :=
  keyOfAngle_of_norm 0 (Or.inl (by simp [eps_pos]))

/-- Claim C6: the canonical direction key is sense-independent: a direction
vector and its `180°`-opposite (the negated vector, whose stored angle is
the original angle shifted by `π`) receive the same canonical key. -/
theorem key_sense_independent (x y : ℝ) :
    LineDirectionKey.calculate (Point2D.ofCartesian x y) =
      LineDirectionKey.calculate (Point2D.ofCartesian (-x) (-y)) := by
  rw [LineDirectionKey.calculate, LineDirectionKey.calculate]
  show keyOfAngle (Complex.arg ⟨x, y⟩) = keyOfAngle (Complex.arg ⟨-x, -y⟩)
  have hneg : (⟨-x, -y⟩ : ℂ) = -(⟨x, y⟩ : ℂ) := by
    rw [complex_mk_eq, complex_mk_eq]
    push_cast
    ring
  rw [hneg]
  rcases lt_trichotomy y 0 with hy | hy | hy
  · have him : (⟨x, y⟩ : ℂ).im < 0 := hy
    rw [Complex.arg_neg_eq_arg_add_pi_of_im_neg him]
    have ha0 : Complex.arg ⟨x, y⟩ < 0 := Complex.arg_neg_iff.mpr him
    have ha1 : -π < Complex.arg ⟨x, y⟩ := Complex.neg_pi_lt_arg _
    have := keyOfAngle_opposite (Complex.arg ⟨x, y⟩ + π) (by linarith) (by linarith)
    rw [show Complex.arg ⟨x, y⟩ + π - π = Complex.arg ⟨x, y⟩ by ring] at this
    exact this.symm
  · rcases lt_trichotomy x 0 with hx | hx | hx
    · have h1 : Complex.arg ⟨x, y⟩ = π := by
        rw [show (⟨x, y⟩ : ℂ) = ((x : ℝ) : ℂ) by rw [complex_mk_eq, hy]; simp]
        exact Complex.arg_ofReal_of_neg hx
      have h2 : Complex.arg (-⟨x, y⟩) = 0 := by
        rw [show -(⟨x, y⟩ : ℂ) = (((-x : ℝ)) : ℂ) by rw [complex_mk_eq, hy]; push_cast; simp]
        exact Complex.arg_ofReal_of_nonneg (by linarith)
      rw [h1, h2, keyOfAngle_pi, keyOfAngle_zero]
    · rw [show (⟨x, y⟩ : ℂ) = 0 by rw [complex_mk_eq, hx, hy]; simp]
      rw [neg_zero]
    · have h1 : Complex.arg ⟨x, y⟩ = 0 := by
        rw [show (⟨x, y⟩ : ℂ) = ((x : ℝ) : ℂ) by rw [complex_mk_eq, hy]; simp]
        exact Complex.arg_ofReal_of_nonneg hx.le
      have h2 : Complex.arg (-⟨x, y⟩) = π := by
        rw [show -(⟨x, y⟩ : ℂ) = (((-x : ℝ)) : ℂ) by rw [complex_mk_eq, hy]; push_cast; simp]
        exact Complex.arg_ofReal_of_neg (by linarith)
      rw [h1, h2, keyOfAngle_pi, keyOfAngle_zero]
  · have him : 0 < (⟨x, y⟩ : ℂ).im := hy
    rw [Complex.arg_neg_eq_arg_sub_pi_of_im_pos him]
    have ha1 : Complex.arg ⟨x, y⟩ ≤ π := Complex.arg_le_pi _
    have ha0 : 0 < Complex.arg ⟨x, y⟩ := by
      rcases lt_or_eq_of_le (not_lt.mp (fun hc =>
        absurd (Complex.arg_neg_iff.mp hc) (by simp [him.le]; linarith))) with h | h
      · exact h
      · exfalso
        have := Complex.arg_eq_zero_iff.mp h.symm
        simp at this
        linarith [this.2, him]
    have ha2 : Complex.arg ⟨x, y⟩ < π := by
      rcases lt_or_eq_of_le ha1 with h | h
      · exact h
      · exfalso
        have := Complex.arg_eq_pi_iff.mp h
        simp at this
        linarith [this.2, him]
    exact keyOfAngle_opposite _ ha0 ha2

/-! Claim C2: the guard of the closure step. -/

lemma findVal_isSome_iff (l : List (ℝ × Point2D)) (k : ℝ) :
    (findVal l k).isSome = true ↔ k ∈ l.map Prod.fst := by
  rw [findVal]
  cases hf : l.find? (fun kv => decide (kv.1 = k)) with
  | none =>
    simp only [hf, Option.map_none', Option.isSome_none, Bool.false_eq_true,
      false_iff]
    intro h
    rw [List.mem_map] at h
    obtain ⟨kv, hkv, hk⟩ := h
    have hnone := List.find?_eq_none.mp hf kv hkv
    simp [hk] at hnone
  | some kv =>
    simp only [hf, Option.map_some', Option.isSome_some, true_iff]
    have hmem := List.mem_of_find?_eq_some hf
    have hp := List.find?_some hf
    simp only [decide_eq_true_eq] at hp
    exact List.mem_map.mpr ⟨kv, hmem, hp⟩

lemma contains_false_eq (s : SymmetryLineSet) (line : Point2D) :
    s.contains line false =
      (findVal s.symmetric_lines (LineDirectionKey.calculate line)).isSome := by
  rw [SymmetryLineSet.contains]
  cases h : (findVal s.symmetric_lines (LineDirectionKey.calculate line)).isSome <;>
    simp [h]

lemma add_true_non (s : SymmetryLineSet) (line : Point2D) :
    (s.add line true).non_symmetric_lines = s.non_symmetric_lines := by
  rw [SymmetryLineSet.add, if_pos rfl]
  split <;> rfl

lemma add_true_keys (s : SymmetryLineSet) (line : Point2D) (k : ℝ) :
    k ∈ (s.add line true).symmetric_lines.map Prod.fst ↔
      k ∈ s.symmetric_lines.map Prod.fst ∨
        k = LineDirectionKey.calculate line := by
  rw [SymmetryLineSet.add, if_pos rfl]
  by_cases h : (findVal s.symmetric_lines (LineDirectionKey.calculate line)).isSome = true
  · rw [if_pos h]
    constructor
    · exact Or.inl
    · rintro (hk | rfl)
      · exact hk
      · exact (findVal_isSome_iff _ _).mp h
  · rw [if_neg h]
    simp

/-- The canonical keys of the two compositions the closure step derives
from the new line and each already-confirmed line. -/
noncomputable def derivedKeys (lines : SymmetryLineSet) (d : Point2D) : List ℝ :=
  lines.symmetric_lines.map
      (fun kv => keyOfAngle (pymod (2 * d.a - kv.2.a) π)) ++
    lines.symmetric_lines.map
      (fun kv => keyOfAngle (pymod (2 * kv.2.a - d.a) π))

lemma calculate_setA (p : Point2D) (a : ℝ) :
    LineDirectionKey.calculate (Point2D.setA p a) = keyOfAngle a := rfl

lemma condAppend_keys (acc : List (ℝ × Point2D)) (key : ℝ) (l : Point2D) (k : ℝ) :
    (k ∈ ((if (findVal acc key).isSome then acc else acc ++ [(key, l)]).map
        Prod.fst)) ↔ k ∈ acc.map Prod.fst ∨ k = key := by
  by_cases h : (findVal acc key).isSome = true
  · rw [if_pos h]
    constructor
    · exact Or.inl
    · rintro (hk | rfl)
      · exact hk
      · exact (findVal_isSome_iff _ _).mp h
  · rw [if_neg h]
    simp

lemma condAppend_inv (acc : List (ℝ × Point2D)) (key : ℝ) (l : Point2D)
    (hl : key = LineDirectionKey.calculate l)
    (hacc : ∀ kv ∈ acc, kv.1 = LineDirectionKey.calculate kv.2) :
    ∀ kv ∈ (if (findVal acc key).isSome then acc else acc ++ [(key, l)]),
      kv.1 = LineDirectionKey.calculate kv.2 := by
  intro kv hkv
  split at hkv
  · exact hacc kv hkv
  · rcases List.mem_append.mp hkv with h | h
    · exact hacc kv h
    · rw [List.mem_singleton] at h
      rw [h, hl]

lemma inferNewLines_inv (lines : SymmetryLineSet) (d : Point2D) :
    ∀ kv ∈ PointSetSymmetryAnalyzer.inferNewLines lines d,
      kv.1 = LineDirectionKey.calculate kv.2 := by
  rw [PointSetSymmetryAnalyzer.inferNewLines]
  suffices h : ∀ (l : List (ℝ × Point2D)) (acc : List (ℝ × Point2D)),
      (∀ kv ∈ acc, kv.1 = LineDirectionKey.calculate kv.2) →
      ∀ kv ∈ l.foldl (fun acc kv =>
        let angle_step := kv.2.a - d.a
        let line_from_new := Point2D.setA (Point2D.ofCartesian 0 0)
          (pymod (d.a - angle_step) π)
        let acc' :=
          if (findVal acc (LineDirectionKey.calculate line_from_new)).isSome then acc
          else acc ++ [(LineDirectionKey.calculate line_from_new, line_from_new)]
        let line_from_existing := Point2D.setA (Point2D.ofCartesian 0 0)
          (pymod (kv.2.a + angle_step) π)
        if (findVal acc' (LineDirectionKey.calculate line_from_existing)).isSome
        then acc'
        else acc' ++
          [(LineDirectionKey.calculate line_from_existing, line_from_existing)]) acc,
        kv.1 = LineDirectionKey.calculate kv.2 by
    exact h lines.symmetric_lines [] (by simp)
  intro l
  induction l with
  | nil => intro acc hacc kv hkv; exact hacc kv hkv
  | cons e rest ih =>
    intro acc hacc kv hkv
    rw [List.foldl_cons] at hkv
    refine ih _ ?_ kv hkv
    exact condAppend_inv _ _ _ rfl (condAppend_inv _ _ _ rfl hacc)

lemma inferNewLines_keys (lines : SymmetryLineSet) (d : Point2D) (k : ℝ) :
    k ∈ (PointSetSymmetryAnalyzer.inferNewLines lines d).map Prod.fst ↔
      k ∈ derivedKeys lines d := by
  rw [PointSetSymmetryAnalyzer.inferNewLines, derivedKeys]
  suffices h : ∀ (l : List (ℝ × Point2D)) (acc : List (ℝ × Point2D)),
      (k ∈ (l.foldl (fun acc kv =>
        let angle_step := kv.2.a - d.a
        let line_from_new := Point2D.setA (Point2D.ofCartesian 0 0)
          (pymod (d.a - angle_step) π)
        let acc' :=
          if (findVal acc (LineDirectionKey.calculate line_from_new)).isSome then acc
          else acc ++ [(LineDirectionKey.calculate line_from_new, line_from_new)]
        let line_from_existing := Point2D.setA (Point2D.ofCartesian 0 0)
          (pymod (kv.2.a + angle_step) π)
        if (findVal acc' (LineDirectionKey.calculate line_from_existing)).isSome
        then acc'
        else acc' ++
          [(LineDirectionKey.calculate line_from_existing, line_from_existing)]) acc).map
            Prod.fst ↔
        k ∈ acc.map Prod.fst ∨
          k ∈ l.map (fun kv => keyOfAngle (pymod (2 * d.a - kv.2.a) π)) ∨
          k ∈ l.map (fun kv => keyOfAngle (pymod (2 * kv.2.a - d.a) π))) by
    rw [h lines.symmetric_lines []]
    simp [List.mem_append]
  intro l
  induction l with
  | nil => intro acc; simp
  | cons e rest ih =>
    intro acc
    rw [List.foldl_cons]
    rw [ih]
    have h1 : d.a - (e.2.a - d.a) = 2 * d.a - e.2.a := by ring
    have h2 : e.2.a + (e.2.a - d.a) = 2 * e.2.a - d.a := by ring
    simp only [calculate_setA, h1, h2]
    rw [condAppend_keys, condAppend_keys]
    simp only [List.map_cons, List.mem_cons]
    tauto

lemma infer_fold_spec (nl : List (ℝ × Point2D)) :
    ∀ (ls : SymmetryLineSet),
      (∀ kv ∈ nl, kv.1 = LineDirectionKey.calculate kv.2) →
      ((nl.foldl (fun ls kv =>
          if ls.contains kv.2 false then ls else ls.add kv.2 true) ls).non_symmetric_lines =
        ls.non_symmetric_lines ∧
      ∀ k, k ∈ (nl.foldl (fun ls kv =>
          if ls.contains kv.2 false then ls else ls.add kv.2 true) ls).symmetric_lines.map
            Prod.fst ↔
        k ∈ ls.symmetric_lines.map Prod.fst ∨ k ∈ nl.map Prod.fst) := by
  induction nl with
  | nil => intro ls _; simp
  | cons kv rest ih =>
    intro ls hinv
    rw [List.foldl_cons]
    have hk := hinv kv (List.mem_cons_self _ _)
    have hstep_non : (if ls.contains kv.2 false then ls
        else ls.add kv.2 true).non_symmetric_lines = ls.non_symmetric_lines := by
      split
      · rfl
      · exact add_true_non ls kv.2
    have hstep_keys : ∀ k, k ∈ (if ls.contains kv.2 false then ls
        else ls.add kv.2 true).symmetric_lines.map Prod.fst ↔
        k ∈ ls.symmetric_lines.map Prod.fst ∨ k = kv.1 := by
      intro k
      by_cases hc : ls.contains kv.2 false = true
      · rw [if_pos hc]
        rw [contains_false_eq] at hc
        constructor
        · exact Or.inl
        · rintro (h | rfl)
          · exact h
          · rw [hk]
            exact (findVal_isSome_iff _ _).mp hc
      · rw [if_neg hc]
        rw [add_true_keys, hk]
    obtain ⟨ihn, ihk⟩ := ih (if ls.contains kv.2 false then ls else ls.add kv.2 true)
      (fun kv' hkv' => hinv kv' (List.mem_cons_of_mem _ hkv'))
    refine ⟨by rw [ihn, hstep_non], ?_⟩
    intro k
    rw [ihk, hstep_keys]
    simp only [List.map_cons, List.mem_cons]
    tauto

/-- Amended claim C2: in the closure step each derived direction is added to
the confirmed map exactly when its canonical key is not already confirmed
(first-write-wins); the non-symmetric set is neither consulted nor changed,
so a derived key already known non-symmetric is still recorded as
confirmed. -/
theorem infer_adds_derived_keys_ignoring_non_symmetric
    (lines : SymmetryLineSet) (d : Point2D) :
    (PointSetSymmetryAnalyzer.infer_next_symmetric lines d).non_symmetric_lines =
      lines.non_symmetric_lines ∧
    ∀ k : ℝ,
      k ∈ (PointSetSymmetryAnalyzer.infer_next_symmetric lines
          d).symmetric_lines.map Prod.fst ↔
        k ∈ lines.symmetric_lines.map Prod.fst ∨ k ∈ derivedKeys lines d := by
  rw [PointSetSymmetryAnalyzer.infer_next_symmetric]
  obtain ⟨hn, hkeys⟩ := infer_fold_spec (PointSetSymmetryAnalyzer.inferNewLines lines d)
    lines (inferNewLines_inv lines d)
  refine ⟨hn, fun k => ?_⟩
  rw [hkeys k, inferNewLines_keys]

/-- Evaluation of the canonical key at an angle away from the normalized
band around `0` and `π`. -/
lemma keyOfAngle_eval (θ : ℝ) (v : ℤ) (h0 : EPSILON ≤ θ) (h1 : θ ≤ π - EPSILON)
    (hv : degrees θ * MAX_PRECISION = (v : ℝ)) :
    keyOfAngle θ = (v : ℝ) / MAX_PRECISION := by
  have hcond : ¬(|θ| < EPSILON ∨ |π - θ| < EPSILON) := by
    push_neg
    constructor
    · rw [abs_of_nonneg (le_trans eps_pos.le h0)]
      exact h0
    · rw [abs_of_nonneg (by linarith [eps_pos])]
      linarith
  rw [keyOfAngle_of_plain θ hcond (le_trans eps_pos.le h0)
    (by linarith [eps_pos]), hv, pyround_intCast]

lemma keyOfAngle_pi_div_two : keyOfAngle (π / 2) = 90 := by
  rw [keyOfAngle_eval (π / 2) 900
    (by rw [EPSILON]; linarith [Real.pi_gt_three])
    (by rw [EPSILON]; linarith [Real.pi_gt_three])
    (by rw [degrees, MAX_PRECISION]; push_cast; field_simp; ring),
    MAX_PRECISION]
  norm_num

lemma arg_mk_I : Complex.arg ⟨0, 1⟩ = π / 2 := by
  rw [show (⟨0, 1⟩ : ℂ) = Complex.I from by rw [complex_mk_eq]; simp]
  exact Complex.arg_I

lemma arg_mk_one_one : Complex.arg ⟨1, 1⟩ = π / 4 := by
  have hs2 : Real.sqrt 2 * Real.sqrt 2 = 2 := Real.mul_self_sqrt (by norm_num)
  have hc : Real.sqrt 2 * Real.cos (π / 4) = 1 := by
    rw [Real.cos_pi_div_four]
    nlinarith [hs2]
  have hsin : Real.sqrt 2 * Real.sin (π / 4) = 1 := by
    rw [Real.sin_pi_div_four]
    nlinarith [hs2]
  have key : (⟨1, 1⟩ : ℂ) =
      ⟨Real.sqrt 2 * Real.cos (π / 4), Real.sqrt 2 * Real.sin (π / 4)⟩ := by
    rw [hc, hsin]
  rw [key]
  exact arg_mk_cos_sin _ _ (Real.sqrt_pos.mpr (by norm_num))
    (by linarith [Real.pi_pos]) (by linarith [Real.pi_pos])

lemma calc_ofCart (x y : ℝ) :
    LineDirectionKey.calculate (Point2D.ofCartesian x y) =
      keyOfAngle (Complex.arg ⟨x, y⟩) := rfl

/-- The registry state for the claim C2 counterexample: the horizontal
direction (key `0.0`) recorded non-symmetric, the vertical direction (key
`90.0`) recorded confirmed. -/
noncomputable def ce2_lines : SymmetryLineSet :=
  (SymmetryLineSet.empty.add (Point2D.ofCartesian 1 0) false).add
    (Point2D.ofCartesian 0 1) true

/-- The newly confirmed diagonal direction (angle `π/4`) for the claim C2
counterexample. -/
noncomputable def ce2_d : Point2D := Point2D.ofCartesian 1 1

lemma ce2_key10 : LineDirectionKey.calculate (Point2D.ofCartesian 1 0) = 0 := by
  rw [calc_ofCart, arg_mk_one_zero, keyOfAngle_zero]

lemma ce2_key01 : LineDirectionKey.calculate (Point2D.ofCartesian 0 1) = 90 := by
  rw [calc_ofCart, arg_mk_I, keyOfAngle_pi_div_two]

lemma ce2_lines_eval : ce2_lines =
    ⟨[(90, Point2D.ofCartesian 0 1)], [0]⟩ := by
  have h1 : SymmetryLineSet.empty.add (Point2D.ofCartesian 1 0) false =
      ⟨[], [0]⟩ := by
    rw [SymmetryLineSet.add]
    simp only [ce2_key10, SymmetryLineSet.empty]
    norm_num
  rw [ce2_lines, h1, SymmetryLineSet.add]
  simp only [ce2_key01]
  simp [findVal]

/-- Claim C2 counterexample: with the key `0.0` already recorded
non-symmetric and the direction at `90°` confirmed, confirming the new
direction at `45°` derives the direction with key `0.0` and records it as
confirmed even though it is in the non-symmetric set (the guard checks only
the confirmed side). -/
theorem infer_confirms_known_non_symmetric_key :
    (0 : ℝ) ∈ ce2_lines.non_symmetric_lines ∧
    (0 : ℝ) ∈ (PointSetSymmetryAnalyzer.infer_next_symmetric ce2_lines
        ce2_d).symmetric_lines.map Prod.fst ∧
    (0 : ℝ) ∈ (PointSetSymmetryAnalyzer.infer_next_symmetric ce2_lines
        ce2_d).non_symmetric_lines := by
  have hda : ce2_d.a = π / 4 := by
    rw [ce2_d, Point2D.ofCartesian]
    exact arg_mk_one_one
  have hea : (Point2D.ofCartesian 0 1).a = π / 2 := by
    rw [Point2D.ofCartesian]
    exact arg_mk_I
  obtain ⟨hn, hkeys⟩ := infer_fold_spec
    (PointSetSymmetryAnalyzer.inferNewLines ce2_lines ce2_d) ce2_lines
    (inferNewLines_inv ce2_lines ce2_d)
  rw [PointSetSymmetryAnalyzer.infer_next_symmetric]
  refine ⟨by rw [ce2_lines_eval]; simp, ?_, by rw [hn, ce2_lines_eval]; simp⟩
  rw [hkeys]
  right
  rw [inferNewLines_keys, derivedKeys, ce2_lines_eval]
  simp only [List.map_cons, List.map_nil]
  apply List.mem_append_left
  rw [List.mem_singleton, hda, hea]
  rw [show 2 * (π / 4) - π / 2 = 0 by ring,
    pymod_eq_self le_rfl Real.pi_pos, keyOfAngle_zero]

/-! Claim C4: closure of the confirmed set under reflection. -/

/-- Amended claim C4: the closure the code performs is a single inference
round at confirmation time: when a new direction `d` is confirmed, for every
already-confirmed direction `e` the canonical keys of both compositions
`(2·d.a − e.a) mod π` and `(2·e.a − d.a) mod π` are in the confirmed map
afterwards.  No further rounds are run over the enlarged set, so the final
confirmed set need not be closed under reflection of arbitrary confirmed
pairs. -/
theorem infer_closes_one_round (lines : SymmetryLineSet) (d e : Point2D)
    (he : e ∈ lines.symmetric_lines.map Prod.snd) :
    keyOfAngle (pymod (2 * d.a - e.a) π) ∈
      (PointSetSymmetryAnalyzer.infer_next_symmetric lines
        d).symmetric_lines.map Prod.fst ∧
    keyOfAngle (pymod (2 * e.a - d.a) π) ∈
      (PointSetSymmetryAnalyzer.infer_next_symmetric lines
        d).symmetric_lines.map Prod.fst := by
  obtain ⟨kv, hkv, hkve⟩ := List.mem_map.mp he
  rw [PointSetSymmetryAnalyzer.infer_next_symmetric]
  obtain ⟨_, hkeys⟩ := infer_fold_spec
    (PointSetSymmetryAnalyzer.inferNewLines lines d) lines
    (inferNewLines_inv lines d)
  constructor
  · rw [hkeys]
    right
    rw [inferNewLines_keys, derivedKeys]
    exact List.mem_append_left _
      (List.mem_map.mpr ⟨kv, hkv, by rw [hkve]⟩)
  · rw [hkeys]
    right
    rw [inferNewLines_keys, derivedKeys]
    exact List.mem_append_right _
      (List.mem_map.mpr ⟨kv, hkv, by rw [hkve]⟩)

/-- Witness for the amended claim C4 theorem: with the vertical direction
confirmed, confirming the diagonal direction adds both derived keys to the
confirmed map. -/
theorem infer_closes_one_round_witness :
    (Point2D.ofCartesian 0 1) ∈
      (SymmetryLineSet.mk [((90 : ℝ), Point2D.ofCartesian 0 1)]
        []).symmetric_lines.map Prod.snd ∧
    (keyOfAngle (pymod (2 * (Point2D.ofCartesian 1 1).a -
        (Point2D.ofCartesian 0 1).a) π) ∈
      (PointSetSymmetryAnalyzer.infer_next_symmetric
        (SymmetryLineSet.mk [((90 : ℝ), Point2D.ofCartesian 0 1)] [])
        (Point2D.ofCartesian 1 1)).symmetric_lines.map Prod.fst ∧
    keyOfAngle (pymod (2 * (Point2D.ofCartesian 0 1).a -
        (Point2D.ofCartesian 1 1).a) π) ∈
      (PointSetSymmetryAnalyzer.infer_next_symmetric
        (SymmetryLineSet.mk [((90 : ℝ), Point2D.ofCartesian 0 1)] [])
        (Point2D.ofCartesian 1 1)).symmetric_lines.map Prod.fst) :=
  ⟨by simp, infer_closes_one_round
    (SymmetryLineSet.mk [((90 : ℝ), Point2D.ofCartesian 0 1)] [])
    (Point2D.ofCartesian 1 1) (Point2D.ofCartesian 0 1) (by simp)⟩

/-! Claim C3: the one-sidedness of a single `add` call. -/

/-- Amended claim C3: a single `SymmetryLineSet.add` call touches only the
requested side of the registry, and only when the canonical key is absent
from that side (first-write-wins); the claimed global invariant that no key
is simultaneously confirmed and non-symmetric is not maintained by the
callers. -/
theorem add_touches_only_requested_side (s : SymmetryLineSet) (line : Point2D) :
    (s.add line true).non_symmetric_lines = s.non_symmetric_lines ∧
    (s.add line false).symmetric_lines = s.symmetric_lines ∧
    (((s.add line true).symmetric_lines = s.symmetric_lines ∧
        LineDirectionKey.calculate line ∈ s.symmetric_lines.map Prod.fst) ∨
      (s.add line true).symmetric_lines =
        s.symmetric_lines ++ [(LineDirectionKey.calculate line, line)]) ∧
    (((s.add line false).non_symmetric_lines = s.non_symmetric_lines ∧
        LineDirectionKey.calculate line ∈ s.non_symmetric_lines) ∨
      (s.add line false).non_symmetric_lines =
        s.non_symmetric_lines ++ [LineDirectionKey.calculate line]) := by
  refine ⟨add_true_non s line, ?_, ?_, ?_⟩
  · rw [SymmetryLineSet.add, if_neg Bool.false_ne_true]
    split <;> rfl
  · rw [SymmetryLineSet.add, if_pos rfl]
    by_cases h : (findVal s.symmetric_lines
        (LineDirectionKey.calculate line)).isSome = true
    · rw [if_pos h]
      exact Or.inl ⟨rfl, (findVal_isSome_iff _ _).mp h⟩
    · rw [if_neg h]
      exact Or.inr rfl
  · rw [SymmetryLineSet.add, if_neg Bool.false_ne_true]
    by_cases h : LineDirectionKey.calculate line ∈ s.non_symmetric_lines
    · rw [if_pos h]
      exact Or.inl ⟨rfl, h⟩
    · rw [if_neg h]
      exact Or.inr rfl

/-! The seven-point configuration used for the claim C3 and C4
counterexamples: a mirror-symmetric pair near the barycenter at angle
`4π/9`, a vertical pair, a pair at angle `35π/36`, and the barycenter
itself. -/

noncomputable def ps7 : List (ℝ × ℝ) :=
  [(1 / 20 * Real.cos (4 * π / 9), 1 / 20 * Real.sin (4 * π / 9)),
   (-(1 / 20 * Real.cos (4 * π / 9)), -(1 / 20 * Real.sin (4 * π / 9))),
   (0, 3 / 10), (0, -(3 / 10)),
   (1 / 5 * Real.cos (35 * π / 36), 1 / 5 * Real.sin (35 * π / 36)),
   (-(1 / 5 * Real.cos (35 * π / 36)), -(1 / 5 * Real.sin (35 * π / 36))),
   (0, 0)]

/-! Additional `hypot`/`atan2` evaluation helpers. -/

lemma mk_imag_eq (y : ℝ) : (⟨0, y⟩ : ℂ) = (y : ℂ) * Complex.I := by
  rw [complex_mk_eq]
  push_cast
  ring

lemma abs_mk_imag (y : ℝ) : Complex.abs ⟨0, y⟩ = |y| := by
  rw [mk_imag_eq, map_mul, Complex.abs_ofReal, Complex.abs_I, mul_one]

lemma arg_mk_imag_pos (y : ℝ) (hy : 0 < y) : Complex.arg ⟨0, y⟩ = π / 2 := by
  rw [mk_imag_eq, Complex.arg_real_mul _ hy, Complex.arg_I]

lemma arg_mk_imag_neg (y : ℝ) (hy : 0 < y) :
    Complex.arg ⟨0, -y⟩ = -(π / 2) := by
  rw [show (⟨0, -y⟩ : ℂ) = (y : ℂ) * -Complex.I from by
    rw [complex_mk_eq]; push_cast; ring]
  rw [Complex.arg_real_mul _ hy, Complex.arg_neg_I]

lemma abs_mk_neg (x y : ℝ) : Complex.abs ⟨-x, -y⟩ = Complex.abs ⟨x, y⟩ := by
  rw [show (⟨-x, -y⟩ : ℂ) = -(⟨x, y⟩ : ℂ) from by
    rw [complex_mk_eq, complex_mk_eq]; push_cast; ring]
  exact Complex.abs.map_neg _

lemma ofCartesian_imag_pos (y : ℝ) (hy : 0 < y) :
    Point2D.ofCartesian 0 y = ⟨0, y, y, π / 2⟩ := by
  rw [Point2D.ofCartesian, abs_mk_imag, abs_of_pos hy, arg_mk_imag_pos y hy]

lemma ofCartesian_imag_neg (y : ℝ) (hy : 0 < y) :
    Point2D.ofCartesian 0 (-y) = ⟨0, -y, y, -(π / 2)⟩ := by
  rw [Point2D.ofCartesian, abs_mk_imag, abs_neg, abs_of_pos hy,
    arg_mk_imag_neg y hy]

lemma cos_sub_pi' (x : ℝ) : Real.cos (x - π) = -Real.cos x := by
  rw [Real.cos_sub, Real.cos_pi, Real.sin_pi]
  ring

lemma sin_sub_pi' (x : ℝ) : Real.sin (x - π) = -Real.sin x := by
  rw [Real.sin_sub, Real.cos_pi, Real.sin_pi]
  ring

lemma cos_pi_add' (x : ℝ) : Real.cos (π + x) = -Real.cos x := by
  rw [Real.cos_add, Real.cos_pi, Real.sin_pi]
  ring

lemma cos_pi_div_two_add' (x : ℝ) : Real.cos (π / 2 + x) = -Real.sin x := by
  rw [Real.cos_add, Real.cos_pi_div_two, Real.sin_pi_div_two]
  ring

lemma ofCartesian_neg_polar (r θ : ℝ) (hr : 0 < r) (h1 : -π < θ - π)
    (h2 : θ - π ≤ π) :
    Point2D.ofCartesian (-(r * Real.cos θ)) (-(r * Real.sin θ)) =
      ⟨-(r * Real.cos θ), -(r * Real.sin θ), r, θ - π⟩ := by
  have hc : -(r * Real.cos θ) = r * Real.cos (θ - π) := by
    rw [cos_sub_pi']
    ring
  have hs : -(r * Real.sin θ) = r * Real.sin (θ - π) := by
    rw [sin_sub_pi']
    ring
  rw [hc, hs]
  exact ofCartesian_polar r (θ - π) hr h1 h2

/-! Evaluation of the annotation pipeline on `ps7`. -/

lemma ps7_bc : PointSet.barycenterOf ps7 = ⟨0, 0, 0, 0⟩ := by
  have hsum : ps7.foldl
      (fun acc c => Point2D.add acc (Point2D.ofCartesian c.1 c.2))
      (Point2D.ofCartesian 0 0) = Point2D.ofCartesian 0 0 := by
    simp only [ps7, List.foldl_cons, List.foldl_nil, Point2D.add,
      Point2D.ofCartesian]
    norm_num
  rw [PointSet.barycenterOf, hsum, ofCartesian_zero, Point2D.setR]
  norm_num

lemma ps7_pairs : PointSet.distPairs ps7 =
    [(0, 1 / 20), (1, 1 / 20), (2, 3 / 10), (3, 3 / 10), (4, 1 / 5),
      (5, 1 / 5), (6, 0)] := by
  rw [PointSet.distPairs, ps7_bc]
  rw [ps7]
  simp only [List.enum, List.enumFrom, List.map_cons, List.map_nil,
    Point2D.sub, Point2D.ofCartesian]
  norm_num [abs_mk_neg, abs_mk_imag, abs_mk_zero, abs_mk_cos_sin]

lemma ps7_sorted : PointSet.sortedDistPairs ps7 =
    [(2, 3 / 10), (3, 3 / 10), (4, 1 / 5), (5, 1 / 5), (0, 1 / 20),
      (1, 1 / 20), (6, 0)] := by
  rw [PointSet.sortedDistPairs, ps7_pairs]
  simp only [List.insertionSort, List.orderedInsert]
  norm_num

lemma ps7_assign : PointSet.colorAssignments
    [(2, 3 / 10), (3, 3 / 10), (4, 1 / 5), (5, 1 / 5), (0, 1 / 20),
      (1, 1 / 20), (6, 0)] =
    [(2, 1, 3 / 10), (3, 1, 3 / 10), (4, 2, 1 / 5), (5, 2, 1 / 5),
      (0, 3, 1 / 20), (1, 3, 1 / 20), (6, 4, 0)] := by
  have g0 : ¬(EPSILON < |(3 : ℝ) / 10 - 3 / 10|) := by norm_num [EPSILON]
  have g1 : EPSILON < |(3 : ℝ) / 10 - 1 / 5| := by
    rw [show (3 : ℝ) / 10 - 1 / 5 = 1 / 10 by norm_num,
      abs_of_nonneg (by norm_num)]
    norm_num [EPSILON]
  have g2 : ¬(EPSILON < |(1 : ℝ) / 5 - 1 / 5|) := by norm_num [EPSILON]
  have g3 : EPSILON < |(1 : ℝ) / 5 - 1 / 20| := by
    rw [show (1 : ℝ) / 5 - 1 / 20 = 3 / 20 by norm_num,
      abs_of_nonneg (by norm_num)]
    norm_num [EPSILON]
  have g4 : ¬(EPSILON < |(1 : ℝ) / 20 - 1 / 20|) := by norm_num [EPSILON]
  have g5 : EPSILON < |(1 : ℝ) / 20 - 0| := by
    rw [show (1 : ℝ) / 20 - 0 = 1 / 20 by norm_num,
      abs_of_nonneg (by norm_num)]
    norm_num [EPSILON]
  rw [PointSet.colorAssignments, PointSet.colorWalk, if_neg g0,
    PointSet.colorWalk, if_pos g1, PointSet.colorWalk, if_neg g2,
    PointSet.colorWalk, if_pos g3, PointSet.colorWalk, if_neg g4,
    PointSet.colorWalk, if_pos g5, PointSet.colorWalk]

/-- The seven annotated points of `ps7` in insertion order. -/
noncomputable def pF : Point :=
  ⟨0, Point2D.ofCartesian (1 / 20 * Real.cos (4 * π / 9))
    (1 / 20 * Real.sin (4 * π / 9)), 3, 1 / 20⟩

noncomputable def pG : Point :=
  ⟨1, Point2D.ofCartesian (-(1 / 20 * Real.cos (4 * π / 9)))
    (-(1 / 20 * Real.sin (4 * π / 9))), 3, 1 / 20⟩

noncomputable def pA : Point := ⟨2, Point2D.ofCartesian 0 (3 / 10), 1, 3 / 10⟩

noncomputable def pB : Point :=
  ⟨3, Point2D.ofCartesian 0 (-(3 / 10)), 1, 3 / 10⟩

noncomputable def pC : Point :=
  ⟨4, Point2D.ofCartesian (1 / 5 * Real.cos (35 * π / 36))
    (1 / 5 * Real.sin (35 * π / 36)), 2, 1 / 5⟩

noncomputable def pD : Point :=
  ⟨5, Point2D.ofCartesian (-(1 / 5 * Real.cos (35 * π / 36)))
    (-(1 / 5 * Real.sin (35 * π / 36))), 2, 1 / 5⟩

noncomputable def pE : Point := ⟨6, Point2D.ofCartesian 0 0, 4, 0⟩

lemma ps7_points : (PointSet.mk' ps7).points = [pF, pG, pA, pB, pC, pD, pE] := by
  rw [PointSet.mk']
  simp only [ps7_sorted, ps7_assign]
  simp only [ps7, List.enum, List.enumFrom, List.map_cons, List.map_nil]
  simp only [pF, pG, pA, pB, pC, pD, pE]
  simp [List.find?]

/-- The annotated point set of the claim C3/C4 counterexample run. -/
noncomputable def ps7set : PointSet := PointSet.mk' ps7

lemma ps7set_points : ps7set.points = [pF, pG, pA, pB, pC, pD, pE] :=
  ps7_points

lemma ps7set_get : ps7set.get = [pF, pG, pA, pB, pC, pD, pE] :=
  ps7_points

lemma ps7set_barycenter : ps7set.barycenter = ⟨0, 0, 0, 0⟩ := by
  rw [PointSet.barycenter, ps7set, PointSet.mk', ps7_bc]

lemma ps7set_size : ps7set.size = 7 := by
  rw [PointSet.size, ps7set_points]
  rfl

lemma ps7_blocks : partitionByColor [pF, pG, pA, pB, pC, pD, pE] =
    [(3, [pF, pG]), (1, [pA, pB]), (2, [pC, pD]), (4, [pE])] := by
  simp [partitionByColor, List.foldl_cons, List.foldl_nil, addToBlocks,
    pF, pG, pA, pB, pC, pD, pE]

lemma ps7_part : partitionByColor ps7set.get =
    [(3, [pF, pG]), (1, [pA, pB]), (2, [pC, pD]), (4, [pE])] := by
  rw [ps7set_get, ps7_blocks]

/-! Polar views of the seven points as seen from the barycenter. -/

lemma sub_bc_zero (x y : ℝ) :
    Point2D.sub (Point2D.ofCartesian x y) (⟨0, 0, 0, 0⟩ : Point2D) =
      Point2D.ofCartesian x y := by
  rw [Point2D.sub]
  simp only [Point2D.ofCartesian]
  norm_num

lemma bc_sub_zero (x y : ℝ) :
    Point2D.sub (⟨0, 0, 0, 0⟩ : Point2D) (Point2D.ofCartesian x y) =
      Point2D.ofCartesian (-x) (-y) := by
  rw [Point2D.sub]
  simp only [Point2D.ofCartesian]
  norm_num

lemma hlocF : Point2D.sub pF.location (⟨0, 0, 0, 0⟩ : Point2D) =
    ⟨1 / 20 * Real.cos (4 * π / 9), 1 / 20 * Real.sin (4 * π / 9), 1 / 20,
      4 * π / 9⟩ := by
  rw [show pF.location = Point2D.ofCartesian (1 / 20 * Real.cos (4 * π / 9))
    (1 / 20 * Real.sin (4 * π / 9)) from rfl, sub_bc_zero]
  exact ofCartesian_polar (1 / 20) (4 * π / 9) (by norm_num)
    (by linarith [Real.pi_pos]) (by linarith [Real.pi_pos])

lemma hlocG : Point2D.sub pG.location (⟨0, 0, 0, 0⟩ : Point2D) =
    ⟨-(1 / 20 * Real.cos (4 * π / 9)), -(1 / 20 * Real.sin (4 * π / 9)),
      1 / 20, 4 * π / 9 - π⟩ := by
  rw [show pG.location = Point2D.ofCartesian
    (-(1 / 20 * Real.cos (4 * π / 9)))
    (-(1 / 20 * Real.sin (4 * π / 9))) from rfl, sub_bc_zero]
  exact ofCartesian_neg_polar (1 / 20) (4 * π / 9) (by norm_num)
    (by linarith [Real.pi_pos]) (by linarith [Real.pi_pos])

lemma hlocA : Point2D.sub pA.location (⟨0, 0, 0, 0⟩ : Point2D) =
    ⟨0, 3 / 10, 3 / 10, π / 2⟩ := by
  rw [show pA.location = Point2D.ofCartesian 0 (3 / 10) from rfl, sub_bc_zero]
  exact ofCartesian_imag_pos (3 / 10) (by norm_num)

lemma hlocB : Point2D.sub pB.location (⟨0, 0, 0, 0⟩ : Point2D) =
    ⟨0, -(3 / 10), 3 / 10, -(π / 2)⟩ := by
  rw [show pB.location = Point2D.ofCartesian 0 (-(3 / 10)) from rfl,
    sub_bc_zero]
  exact ofCartesian_imag_neg (3 / 10) (by norm_num)

lemma hlocC : Point2D.sub pC.location (⟨0, 0, 0, 0⟩ : Point2D) =
    ⟨1 / 5 * Real.cos (35 * π / 36), 1 / 5 * Real.sin (35 * π / 36), 1 / 5,
      35 * π / 36⟩ := by
  rw [show pC.location = Point2D.ofCartesian (1 / 5 * Real.cos (35 * π / 36))
    (1 / 5 * Real.sin (35 * π / 36)) from rfl, sub_bc_zero]
  exact ofCartesian_polar (1 / 5) (35 * π / 36) (by norm_num)
    (by linarith [Real.pi_pos]) (by linarith [Real.pi_pos])

lemma hlocD : Point2D.sub pD.location (⟨0, 0, 0, 0⟩ : Point2D) =
    ⟨-(1 / 5 * Real.cos (35 * π / 36)), -(1 / 5 * Real.sin (35 * π / 36)),
      1 / 5, 35 * π / 36 - π⟩ := by
  rw [show pD.location = Point2D.ofCartesian
    (-(1 / 5 * Real.cos (35 * π / 36)))
    (-(1 / 5 * Real.sin (35 * π / 36))) from rfl, sub_bc_zero]
  exact ofCartesian_neg_polar (1 / 5) (35 * π / 36) (by norm_num)
    (by linarith [Real.pi_pos]) (by linarith [Real.pi_pos])

lemma hlocE : Point2D.sub pE.location (⟨0, 0, 0, 0⟩ : Point2D) =
    ⟨0, 0, 0, 0⟩ := by
  rw [show pE.location = Point2D.ofCartesian 0 0 from rfl, sub_bc_zero,
    ofCartesian_zero]

lemma subr_pF : (Point2D.sub pF.location (⟨0, 0, 0, 0⟩ : Point2D)).r =
    1 / 20 := by rw [hlocF]

lemma suba_pF : (Point2D.sub pF.location (⟨0, 0, 0, 0⟩ : Point2D)).a =
    4 * π / 9 := by rw [hlocF]

lemma subr_pG : (Point2D.sub pG.location (⟨0, 0, 0, 0⟩ : Point2D)).r =
    1 / 20 := by rw [hlocG]

lemma suba_pG : (Point2D.sub pG.location (⟨0, 0, 0, 0⟩ : Point2D)).a =
    4 * π / 9 - π := by rw [hlocG]

lemma subr_pA : (Point2D.sub pA.location (⟨0, 0, 0, 0⟩ : Point2D)).r =
    3 / 10 := by rw [hlocA]

lemma suba_pA : (Point2D.sub pA.location (⟨0, 0, 0, 0⟩ : Point2D)).a =
    π / 2 := by rw [hlocA]

lemma subr_pB : (Point2D.sub pB.location (⟨0, 0, 0, 0⟩ : Point2D)).r =
    3 / 10 := by rw [hlocB]

lemma suba_pB : (Point2D.sub pB.location (⟨0, 0, 0, 0⟩ : Point2D)).a =
    -(π / 2) := by rw [hlocB]

lemma subr_pC : (Point2D.sub pC.location (⟨0, 0, 0, 0⟩ : Point2D)).r =
    1 / 5 := by rw [hlocC]

lemma suba_pC : (Point2D.sub pC.location (⟨0, 0, 0, 0⟩ : Point2D)).a =
    35 * π / 36 := by rw [hlocC]

lemma subr_pD : (Point2D.sub pD.location (⟨0, 0, 0, 0⟩ : Point2D)).r =
    1 / 5 := by rw [hlocD]

lemma suba_pD : (Point2D.sub pD.location (⟨0, 0, 0, 0⟩ : Point2D)).a =
    35 * π / 36 - π := by rw [hlocD]

lemma subr_pE : (Point2D.sub pE.location (⟨0, 0, 0, 0⟩ : Point2D)).r = 0 := by
  rw [hlocE]

lemma hr_pF : ¬((Point2D.sub pF.location (⟨0, 0, 0, 0⟩ : Point2D)).r <
    EPSILON) := by
  rw [subr_pF, EPSILON]
  norm_num

lemma hr_pG : ¬((Point2D.sub pG.location (⟨0, 0, 0, 0⟩ : Point2D)).r <
    EPSILON) := by
  rw [subr_pG, EPSILON]
  norm_num

lemma hr_pA : ¬((Point2D.sub pA.location (⟨0, 0, 0, 0⟩ : Point2D)).r <
    EPSILON) := by
  rw [subr_pA, EPSILON]
  norm_num

lemma hr_pB : ¬((Point2D.sub pB.location (⟨0, 0, 0, 0⟩ : Point2D)).r <
    EPSILON) := by
  rw [subr_pB, EPSILON]
  norm_num

lemma hr_pC : ¬((Point2D.sub pC.location (⟨0, 0, 0, 0⟩ : Point2D)).r <
    EPSILON) := by
  rw [subr_pC, EPSILON]
  norm_num

lemma hr_pD : ¬((Point2D.sub pD.location (⟨0, 0, 0, 0⟩ : Point2D)).r <
    EPSILON) := by
  rw [subr_pD, EPSILON]
  norm_num

lemma hr0_pE : (Point2D.sub pE.location (⟨0, 0, 0, 0⟩ : Point2D)).r <
    EPSILON := by
  rw [subr_pE]
  exact eps_pos

/-! The candidate lines visited by pass 1 on `ps7`. -/

noncomputable def lineF : Point2D :=
  Point2D.ofCartesian (-(1 / 20 * Real.cos (4 * π / 9)))
    (-(1 / 20 * Real.sin (4 * π / 9)))

noncomputable def lineG : Point2D :=
  Point2D.ofCartesian (1 / 20 * Real.cos (4 * π / 9))
    (1 / 20 * Real.sin (4 * π / 9))

noncomputable def lineA : Point2D := Point2D.ofCartesian 0 (-(3 / 10))

noncomputable def lineB : Point2D := Point2D.ofCartesian 0 (3 / 10)

noncomputable def lineC : Point2D :=
  Point2D.ofCartesian (-(1 / 5 * Real.cos (35 * π / 36)))
    (-(1 / 5 * Real.sin (35 * π / 36)))

noncomputable def lineD : Point2D :=
  Point2D.ofCartesian (1 / 5 * Real.cos (35 * π / 36))
    (1 / 5 * Real.sin (35 * π / 36))

lemma ha_lineF : lineF.a = 4 * π / 9 - π := by
  rw [lineF, ofCartesian_neg_polar (1 / 20) (4 * π / 9) (by norm_num)
    (by linarith [Real.pi_pos]) (by linarith [Real.pi_pos])]

lemma ha_lineG : lineG.a = 4 * π / 9 := by
  rw [lineG, ofCartesian_polar (1 / 20) (4 * π / 9) (by norm_num)
    (by linarith [Real.pi_pos]) (by linarith [Real.pi_pos])]

lemma ha_lineA : lineA.a = -(π / 2) := by
  rw [lineA, ofCartesian_imag_neg (3 / 10) (by norm_num)]

lemma ha_lineB : lineB.a = π / 2 := by
  rw [lineB, ofCartesian_imag_pos (3 / 10) (by norm_num)]

lemma ha_lineC : lineC.a = 35 * π / 36 - π := by
  rw [lineC, ofCartesian_neg_polar (1 / 5) (35 * π / 36) (by norm_num)
    (by linarith [Real.pi_pos]) (by linarith [Real.pi_pos])]

lemma ha_lineD : lineD.a = 35 * π / 36 := by
  rw [lineD, ofCartesian_polar (1 / 5) (35 * π / 36) (by norm_num)
    (by linarith [Real.pi_pos]) (by linarith [Real.pi_pos])]

lemma line_pF : Point2D.sub (⟨0, 0, 0, 0⟩ : Point2D) pF.location = lineF := by
  rw [show pF.location = Point2D.ofCartesian (1 / 20 * Real.cos (4 * π / 9))
    (1 / 20 * Real.sin (4 * π / 9)) from rfl, bc_sub_zero]
  rfl

lemma line_pG : Point2D.sub (⟨0, 0, 0, 0⟩ : Point2D) pG.location = lineG := by
  rw [show pG.location = Point2D.ofCartesian
    (-(1 / 20 * Real.cos (4 * π / 9)))
    (-(1 / 20 * Real.sin (4 * π / 9))) from rfl, bc_sub_zero, neg_neg, neg_neg]
  rfl

lemma line_pA : Point2D.sub (⟨0, 0, 0, 0⟩ : Point2D) pA.location = lineA := by
  rw [show pA.location = Point2D.ofCartesian 0 (3 / 10) from rfl, bc_sub_zero,
    neg_zero]
  rfl

lemma line_pB : Point2D.sub (⟨0, 0, 0, 0⟩ : Point2D) pB.location = lineB := by
  rw [show pB.location = Point2D.ofCartesian 0 (-(3 / 10)) from rfl,
    bc_sub_zero, neg_zero, neg_neg]
  rfl

lemma line_pC : Point2D.sub (⟨0, 0, 0, 0⟩ : Point2D) pC.location = lineC := by
  rw [show pC.location = Point2D.ofCartesian (1 / 5 * Real.cos (35 * π / 36))
    (1 / 5 * Real.sin (35 * π / 36)) from rfl, bc_sub_zero]
  rfl

lemma line_pD : Point2D.sub (⟨0, 0, 0, 0⟩ : Point2D) pD.location = lineD := by
  rw [show pD.location = Point2D.ofCartesian
    (-(1 / 5 * Real.cos (35 * π / 36)))
    (-(1 / 5 * Real.sin (35 * π / 36))) from rfl, bc_sub_zero, neg_neg,
    neg_neg]
  rfl

/-! Canonical keys of the candidate lines. -/

lemma keyOfAngle_neg_eval (a : ℝ) (v : ℤ) (h0 : -π ≤ a)
    (h1 : EPSILON ≤ a + π) (h2 : a + π ≤ π - EPSILON)
    (hv : degrees (a + π) * MAX_PRECISION = (v : ℝ)) :
    keyOfAngle a = (v : ℝ) / MAX_PRECISION := by
  have hpi := Real.pi_pos
  have heps := eps_pos
  have ha1 : a < 0 := by linarith
  have hcond : ¬(|a| < EPSILON ∨ |π - a| < EPSILON) := by
    push_neg
    constructor
    · rw [abs_of_neg ha1]
      linarith
    · rw [abs_of_nonneg (by linarith)]
      linarith
  rw [keyOfAngle]
  simp only [if_neg hcond]
  rw [pymod_eq_add (x := a) Real.pi_pos h0 ha1,
    pymod_eq_sub (x := π + (a + π)) Real.pi_pos (by linarith) (by linarith),
    show π + (a + π) - π = a + π by ring, max_self, hv, pyround_intCast]

lemma k80n : keyOfAngle (4 * π / 9 - π) = 80 := by
  have hpi := Real.pi_gt_three
  rw [keyOfAngle_neg_eval (4 * π / 9 - π) 800 (by linarith)
    (by rw [EPSILON, show 4 * π / 9 - π + π = 4 * π / 9 by ring]; linarith)
    (by rw [EPSILON, show 4 * π / 9 - π + π = 4 * π / 9 by ring]; linarith)
    (by rw [degrees, MAX_PRECISION]; push_cast; field_simp; ring),
    MAX_PRECISION]
  norm_num

lemma k80p : keyOfAngle (4 * π / 9) = 80 := by
  have hpi := Real.pi_gt_three
  rw [keyOfAngle_eval (4 * π / 9) 800 (by rw [EPSILON]; linarith)
    (by rw [EPSILON]; linarith)
    (by rw [degrees, MAX_PRECISION]; push_cast; field_simp; ring),
    MAX_PRECISION]
  norm_num

lemma k90n : keyOfAngle (-(π / 2)) = 90 := by
  have hpi := Real.pi_gt_three
  rw [keyOfAngle_neg_eval (-(π / 2)) 900 (by linarith)
    (by rw [EPSILON, show -(π / 2) + π = π / 2 by ring]; linarith)
    (by rw [EPSILON, show -(π / 2) + π = π / 2 by ring]; linarith)
    (by rw [degrees, MAX_PRECISION]; push_cast; field_simp; ring),
    MAX_PRECISION]
  norm_num

lemma k175n : keyOfAngle (35 * π / 36 - π) = 175 := by
  have hpi := Real.pi_gt_three
  rw [keyOfAngle_neg_eval (35 * π / 36 - π) 1750 (by linarith)
    (by rw [EPSILON, show 35 * π / 36 - π + π = 35 * π / 36 by ring]; linarith)
    (by rw [EPSILON, show 35 * π / 36 - π + π = 35 * π / 36 by ring]; linarith)
    (by rw [degrees, MAX_PRECISION]; push_cast; field_simp; ring),
    MAX_PRECISION]
  norm_num

lemma k175p : keyOfAngle (35 * π / 36) = 175 := by
  have hpi := Real.pi_gt_three
  rw [keyOfAngle_eval (35 * π / 36) 1750 (by rw [EPSILON]; linarith)
    (by rw [EPSILON]; linarith)
    (by rw [degrees, MAX_PRECISION]; push_cast; field_simp; ring),
    MAX_PRECISION]
  norm_num

lemma k5p : keyOfAngle (π / 36) = 5 := by
  have hpi := Real.pi_gt_three
  have hpi2 := Real.pi_lt_315
  rw [keyOfAngle_eval (π / 36) 50 (by rw [EPSILON]; linarith)
    (by rw [EPSILON]; linarith)
    (by rw [degrees, MAX_PRECISION]; push_cast; field_simp; ring),
    MAX_PRECISION]
  norm_num

lemma k70 : keyOfAngle (7 * π / 18) = 70 := by
  have hpi := Real.pi_gt_three
  rw [keyOfAngle_eval (7 * π / 18) 700 (by rw [EPSILON]; linarith)
    (by rw [EPSILON]; linarith)
    (by rw [degrees, MAX_PRECISION]; push_cast; field_simp; ring),
    MAX_PRECISION]
  norm_num

lemma key_lineF : LineDirectionKey.calculate lineF = 80 := by
  rw [LineDirectionKey.calculate, ha_lineF, k80n]

lemma key_lineG : LineDirectionKey.calculate lineG = 80 := by
  rw [LineDirectionKey.calculate, ha_lineG, k80p]

lemma key_lineA : LineDirectionKey.calculate lineA = 90 := by
  rw [LineDirectionKey.calculate, ha_lineA, k90n]

lemma key_lineB : LineDirectionKey.calculate lineB = 90 := by
  rw [LineDirectionKey.calculate, ha_lineB, keyOfAngle_pi_div_two]

lemma key_lineC : LineDirectionKey.calculate lineC = 175 := by
  rw [LineDirectionKey.calculate, ha_lineC, k175n]

lemma key_lineD : LineDirectionKey.calculate lineD = 175 := by
  rw [LineDirectionKey.calculate, ha_lineD, k175p]

/-! Alignment of each point with each candidate line. -/

lemma pymod_abs_ge (α : ℝ) (h0 : 0 ≤ α) (h1 : α < π) (h2 : EPSILON ≤ α) :
    ¬(|pymod α π| < EPSILON) := by
  rw [pymod_eq_self h0 h1, abs_of_nonneg h0]
  exact not_lt.mpr h2

lemma pymod_abs_ge_neg (α : ℝ) (h0 : -π ≤ α) (h1 : α < 0)
    (h2 : EPSILON ≤ α + π) : ¬(|pymod α π| < EPSILON) := by
  rw [pymod_eq_add Real.pi_pos h0 h1, abs_of_nonneg (by linarith)]
  exact not_lt.mpr h2

lemma pymod_abs_ge_big (α : ℝ) (h0 : π ≤ α) (h1 : α < 2 * π)
    (h2 : EPSILON ≤ α - π) : ¬(|pymod α π| < EPSILON) := by
  rw [pymod_eq_sub Real.pi_pos h0 h1, abs_of_nonneg (by linarith)]
  exact not_lt.mpr h2

lemma is_aligned_false_of (p : Point) (line bc : Point2D)
    (hr : ¬((Point2D.sub p.location bc).r < EPSILON))
    (h1 : ¬(|pymod ((Point2D.sub p.location bc).a - line.a) π| < EPSILON))
    (h2 : ¬(|pymod (|(Point2D.sub p.location bc).a - line.a| - π) π| <
      EPSILON)) :
    SymmetryLineValidator.is_aligned p line bc = false := by
  rw [SymmetryLineValidator.is_aligned, if_neg hr]
  simp only [decide_eq_false_iff_not, not_or]
  exact ⟨h1, h2⟩

lemma is_aligned_true_of (p : Point) (line bc : Point2D)
    (h1 : |pymod ((Point2D.sub p.location bc).a - line.a) π| < EPSILON) :
    SymmetryLineValidator.is_aligned p line bc = true := by
  rw [SymmetryLineValidator.is_aligned]
  split
  · rfl
  · simp only [decide_eq_true_eq]
    exact Or.inl h1

lemma is_aligned_coincident (p : Point) (line bc : Point2D)
    (hr : (Point2D.sub p.location bc).r < EPSILON) :
    SymmetryLineValidator.is_aligned p line bc = true := by
  rw [SymmetryLineValidator.is_aligned, if_pos hr]

lemma alF_F : SymmetryLineValidator.is_aligned pF lineF
    (⟨0, 0, 0, 0⟩ : Point2D) = true := by
  apply is_aligned_true_of
  rw [suba_pF, ha_lineF, show 4 * π / 9 - (4 * π / 9 - π) = π by ring,
    pymod_pi_pi, abs_zero]
  exact eps_pos

lemma alF_G : SymmetryLineValidator.is_aligned pG lineF
    (⟨0, 0, 0, 0⟩ : Point2D) = true := by
  apply is_aligned_true_of
  rw [suba_pG, ha_lineF, show 4 * π / 9 - π - (4 * π / 9 - π) = 0 by ring,
    pymod_eq_self le_rfl Real.pi_pos, abs_zero]
  exact eps_pos

lemma alF_A : SymmetryLineValidator.is_aligned pA lineF
    (⟨0, 0, 0, 0⟩ : Point2D) = false := by
  have hpi := Real.pi_gt_three
  have hpe : EPSILON = (1 : ℝ) / 1000000 := rfl
  apply is_aligned_false_of
  · exact hr_pA
  · rw [suba_pA, ha_lineF, show π / 2 - (4 * π / 9 - π) = 19 * π / 18 by ring]
    apply pymod_abs_ge_big
    · linarith
    · linarith
    · rw [hpe]; linarith
  · rw [suba_pA, ha_lineF, show π / 2 - (4 * π / 9 - π) = 19 * π / 18 by ring,
      abs_of_nonneg (show (0 : ℝ) ≤ 19 * π / 18 from by positivity), show 19 * π / 18 - π = π / 18 by ring]
    apply pymod_abs_ge
    · positivity
    · linarith
    · rw [hpe]; linarith

lemma alF_B : SymmetryLineValidator.is_aligned pB lineF
    (⟨0, 0, 0, 0⟩ : Point2D) = false := by
  have hpi := Real.pi_gt_three
  have hpe : EPSILON = (1 : ℝ) / 1000000 := rfl
  apply is_aligned_false_of
  · exact hr_pB
  · rw [suba_pB, ha_lineF, show -(π / 2) - (4 * π / 9 - π) = π / 18 by ring]
    apply pymod_abs_ge
    · positivity
    · linarith
    · rw [hpe]; linarith
  · rw [suba_pB, ha_lineF, show -(π / 2) - (4 * π / 9 - π) = π / 18 by ring,
      abs_of_nonneg (show (0 : ℝ) ≤ π / 18 from by positivity)]
    apply pymod_abs_ge_neg
    · linarith
    · linarith
    · rw [hpe]; linarith

lemma alA_F : SymmetryLineValidator.is_aligned pF lineA
    (⟨0, 0, 0, 0⟩ : Point2D) = false := by
  have hpi := Real.pi_gt_three
  have hpe : EPSILON = (1 : ℝ) / 1000000 := rfl
  apply is_aligned_false_of
  · exact hr_pF
  · rw [suba_pF, ha_lineA, show 4 * π / 9 - -(π / 2) = 17 * π / 18 by ring]
    apply pymod_abs_ge
    · positivity
    · linarith
    · rw [hpe]; linarith
  · rw [suba_pF, ha_lineA, show 4 * π / 9 - -(π / 2) = 17 * π / 18 by ring,
      abs_of_nonneg (show (0 : ℝ) ≤ 17 * π / 18 from by positivity)]
    apply pymod_abs_ge_neg
    · linarith
    · linarith
    · rw [hpe]; linarith

lemma alA_G : SymmetryLineValidator.is_aligned pG lineA
    (⟨0, 0, 0, 0⟩ : Point2D) = false := by
  have hpi := Real.pi_gt_three
  have hpe : EPSILON = (1 : ℝ) / 1000000 := rfl
  apply is_aligned_false_of
  · exact hr_pG
  · rw [suba_pG, ha_lineA,
      show 4 * π / 9 - π - -(π / 2) = -(π / 18) by ring]
    apply pymod_abs_ge_neg
    · linarith
    · linarith
    · rw [hpe]; linarith
  · rw [suba_pG, ha_lineA,
      show 4 * π / 9 - π - -(π / 2) = -(π / 18) by ring, abs_neg,
      abs_of_nonneg (show (0 : ℝ) ≤ π / 18 from by positivity)]
    apply pymod_abs_ge_neg
    · linarith
    · linarith
    · rw [hpe]; linarith

lemma alA_A : SymmetryLineValidator.is_aligned pA lineA
    (⟨0, 0, 0, 0⟩ : Point2D) = true := by
  apply is_aligned_true_of
  rw [suba_pA, ha_lineA, show π / 2 - -(π / 2) = π by ring, pymod_pi_pi,
    abs_zero]
  exact eps_pos

lemma alA_B : SymmetryLineValidator.is_aligned pB lineA
    (⟨0, 0, 0, 0⟩ : Point2D) = true := by
  apply is_aligned_true_of
  rw [suba_pB, ha_lineA, show -(π / 2) - -(π / 2) = 0 by ring,
    pymod_eq_self le_rfl Real.pi_pos, abs_zero]
  exact eps_pos

lemma alA_C : SymmetryLineValidator.is_aligned pC lineA
    (⟨0, 0, 0, 0⟩ : Point2D) = false := by
  have hpi := Real.pi_gt_three
  have hpe : EPSILON = (1 : ℝ) / 1000000 := rfl
  apply is_aligned_false_of
  · exact hr_pC
  · rw [suba_pC, ha_lineA, show 35 * π / 36 - -(π / 2) = 53 * π / 36 by ring]
    apply pymod_abs_ge_big
    · linarith
    · linarith
    · rw [hpe]; linarith
  · rw [suba_pC, ha_lineA, show 35 * π / 36 - -(π / 2) = 53 * π / 36 by ring,
      abs_of_nonneg (show (0 : ℝ) ≤ 53 * π / 36 from by positivity),
      show 53 * π / 36 - π = 17 * π / 36 by ring]
    apply pymod_abs_ge
    · positivity
    · linarith
    · rw [hpe]; linarith

lemma alA_D : SymmetryLineValidator.is_aligned pD lineA
    (⟨0, 0, 0, 0⟩ : Point2D) = false := by
  have hpi := Real.pi_gt_three
  have hpe : EPSILON = (1 : ℝ) / 1000000 := rfl
  apply is_aligned_false_of
  · exact hr_pD
  · rw [suba_pD, ha_lineA,
      show 35 * π / 36 - π - -(π / 2) = 17 * π / 36 by ring]
    apply pymod_abs_ge
    · positivity
    · linarith
    · rw [hpe]; linarith
  · rw [suba_pD, ha_lineA,
      show 35 * π / 36 - π - -(π / 2) = 17 * π / 36 by ring,
      abs_of_nonneg (show (0 : ℝ) ≤ 17 * π / 36 from by positivity)]
    apply pymod_abs_ge_neg
    · linarith
    · linarith
    · rw [hpe]; linarith

lemma alC_F : SymmetryLineValidator.is_aligned pF lineC
    (⟨0, 0, 0, 0⟩ : Point2D) = false := by
  have hpi := Real.pi_gt_three
  have hpe : EPSILON = (1 : ℝ) / 1000000 := rfl
  apply is_aligned_false_of
  · exact hr_pF
  · rw [suba_pF, ha_lineC,
      show 4 * π / 9 - (35 * π / 36 - π) = 17 * π / 36 by ring]
    apply pymod_abs_ge
    · positivity
    · linarith
    · rw [hpe]; linarith
  · rw [suba_pF, ha_lineC,
      show 4 * π / 9 - (35 * π / 36 - π) = 17 * π / 36 by ring,
      abs_of_nonneg (show (0 : ℝ) ≤ 17 * π / 36 from by positivity)]
    apply pymod_abs_ge_neg
    · linarith
    · linarith
    · rw [hpe]; linarith

lemma alC_G : SymmetryLineValidator.is_aligned pG lineC
    (⟨0, 0, 0, 0⟩ : Point2D) = false := by
  have hpi := Real.pi_gt_three
  have hpe : EPSILON = (1 : ℝ) / 1000000 := rfl
  apply is_aligned_false_of
  · exact hr_pG
  · rw [suba_pG, ha_lineC,
      show 4 * π / 9 - π - (35 * π / 36 - π) = -(19 * π / 36) by ring]
    apply pymod_abs_ge_neg
    · linarith
    · linarith
    · rw [hpe]; linarith
  · rw [suba_pG, ha_lineC,
      show 4 * π / 9 - π - (35 * π / 36 - π) = -(19 * π / 36) by ring,
      abs_neg, abs_of_nonneg (show (0 : ℝ) ≤ 19 * π / 36 from by positivity)]
    apply pymod_abs_ge_neg
    · linarith
    · linarith
    · rw [hpe]; linarith

lemma alC_A : SymmetryLineValidator.is_aligned pA lineC
    (⟨0, 0, 0, 0⟩ : Point2D) = false := by
  have hpi := Real.pi_gt_three
  have hpe : EPSILON = (1 : ℝ) / 1000000 := rfl
  apply is_aligned_false_of
  · exact hr_pA
  · rw [suba_pA, ha_lineC,
      show π / 2 - (35 * π / 36 - π) = 19 * π / 36 by ring]
    apply pymod_abs_ge
    · positivity
    · linarith
    · rw [hpe]; linarith
  · rw [suba_pA, ha_lineC,
      show π / 2 - (35 * π / 36 - π) = 19 * π / 36 by ring,
      abs_of_nonneg (show (0 : ℝ) ≤ 19 * π / 36 from by positivity)]
    apply pymod_abs_ge_neg
    · linarith
    · linarith
    · rw [hpe]; linarith

lemma alC_B : SymmetryLineValidator.is_aligned pB lineC
    (⟨0, 0, 0, 0⟩ : Point2D) = false := by
  have hpi := Real.pi_gt_three
  have hpe : EPSILON = (1 : ℝ) / 1000000 := rfl
  apply is_aligned_false_of
  · exact hr_pB
  · rw [suba_pB, ha_lineC,
      show -(π / 2) - (35 * π / 36 - π) = -(17 * π / 36) by ring]
    apply pymod_abs_ge_neg
    · linarith
    · linarith
    · rw [hpe]; linarith
  · rw [suba_pB, ha_lineC,
      show -(π / 2) - (35 * π / 36 - π) = -(17 * π / 36) by ring, abs_neg,
      abs_of_nonneg (show (0 : ℝ) ≤ 17 * π / 36 from by positivity)]
    apply pymod_abs_ge_neg
    · linarith
    · linarith
    · rw [hpe]; linarith

lemma alC_C : SymmetryLineValidator.is_aligned pC lineC
    (⟨0, 0, 0, 0⟩ : Point2D) = true := by
  apply is_aligned_true_of
  rw [suba_pC, ha_lineC, show 35 * π / 36 - (35 * π / 36 - π) = π by ring,
    pymod_pi_pi, abs_zero]
  exact eps_pos

lemma alC_D : SymmetryLineValidator.is_aligned pD lineC
    (⟨0, 0, 0, 0⟩ : Point2D) = true := by
  apply is_aligned_true_of
  rw [suba_pD, ha_lineC,
    show 35 * π / 36 - π - (35 * π / 36 - π) = 0 by ring,
    pymod_eq_self le_rfl Real.pi_pos, abs_zero]
  exact eps_pos

/-! Projected-distance keys of the non-aligned points. -/

lemma cos_pi_div_18_gt : (5 : ℝ) / 6 < Real.cos (π / 18) := by
  have h := Real.one_sub_sq_div_two_le_cos (x := π / 18)
  have hpi := Real.pi_lt_315
  have hpi0 := Real.pi_pos
  nlinarith

lemma sin_pi_div_36_lt : Real.sin (π / 36) < π / 36 :=
  Real.sin_lt (by positivity)

lemma sin_pi_div_36_nonneg : 0 ≤ Real.sin (π / 36) :=
  Real.sin_nonneg_of_nonneg_of_le_pi (by positivity)
    (by linarith [Real.pi_pos])

lemma projected_key_zero (d α : ℝ) (h : |10 * d * Real.cos α| ≤ 1 / 2) :
    SymmetryLineValidator.get_projected_distance_key d α = 0 := by
  rw [SymmetryLineValidator.get_projected_distance_key, MAX_PRECISION,
    pyround_eq_zero _ h]
  norm_num

lemma pk_A_F : SymmetryLineValidator.get_projected_distance_key (3 / 10)
    (19 * π / 18) = -(3 / 10) := by
  rw [SymmetryLineValidator.get_projected_distance_key, MAX_PRECISION]
  rw [show (19 : ℝ) * π / 18 = π + π / 18 by ring, cos_pi_add']
  have h : pyround ((10 : ℝ) * (3 / 10) * -Real.cos (π / 18)) = -3 := by
    apply pyround_eq
    · push_cast
      nlinarith [Real.cos_le_one (π / 18)]
    · push_cast
      nlinarith [cos_pi_div_18_gt]
  rw [h]
  push_cast
  norm_num

lemma pk_B_F : SymmetryLineValidator.get_projected_distance_key (3 / 10)
    (π / 18) = 3 / 10 := by
  rw [SymmetryLineValidator.get_projected_distance_key, MAX_PRECISION]
  have h : pyround ((10 : ℝ) * (3 / 10) * Real.cos (π / 18)) = 3 := by
    apply pyround_eq
    · push_cast
      nlinarith [cos_pi_div_18_gt]
    · push_cast
      nlinarith [Real.cos_le_one (π / 18)]
  rw [h]
  push_cast
  norm_num

lemma pk_F_A : SymmetryLineValidator.get_projected_distance_key (1 / 20)
    (17 * π / 18) = 0 := by
  apply projected_key_zero
  rw [show (17 : ℝ) * π / 18 = π - π / 18 by ring, Real.cos_pi_sub, abs_le]
  constructor
  · nlinarith [Real.cos_le_one (π / 18)]
  · nlinarith [Real.neg_one_le_cos (π / 18)]

lemma pk_G_A : SymmetryLineValidator.get_projected_distance_key (1 / 20)
    (-(π / 18)) = 0 := by
  apply projected_key_zero
  rw [Real.cos_neg, abs_le]
  constructor
  · nlinarith [Real.neg_one_le_cos (π / 18)]
  · nlinarith [Real.cos_le_one (π / 18)]

lemma pk_C_A : SymmetryLineValidator.get_projected_distance_key (1 / 5)
    (53 * π / 36) = 0 := by
  apply projected_key_zero
  rw [show (53 : ℝ) * π / 36 = π + 17 * π / 36 by ring, cos_pi_add',
    show (17 : ℝ) * π / 36 = π / 2 - π / 36 by ring, Real.cos_pi_div_two_sub,
    abs_le]
  have hpi := Real.pi_lt_315
  constructor
  · nlinarith [sin_pi_div_36_lt]
  · nlinarith [sin_pi_div_36_nonneg]

lemma pk_D_A : SymmetryLineValidator.get_projected_distance_key (1 / 5)
    (17 * π / 36) = 0 := by
  apply projected_key_zero
  rw [show (17 : ℝ) * π / 36 = π / 2 - π / 36 by ring, Real.cos_pi_div_two_sub,
    abs_le]
  have hpi := Real.pi_lt_315
  constructor
  · nlinarith [sin_pi_div_36_nonneg]
  · nlinarith [sin_pi_div_36_lt]

lemma pk_F_C : SymmetryLineValidator.get_projected_distance_key (1 / 20)
    (17 * π / 36) = 0 := by
  apply projected_key_zero
  rw [show (17 : ℝ) * π / 36 = π / 2 - π / 36 by ring, Real.cos_pi_div_two_sub,
    abs_le]
  have hpi := Real.pi_lt_315
  constructor
  · nlinarith [sin_pi_div_36_nonneg]
  · nlinarith [sin_pi_div_36_lt]

lemma pk_G_C : SymmetryLineValidator.get_projected_distance_key (1 / 20)
    (-(19 * π / 36)) = 0 := by
  apply projected_key_zero
  rw [Real.cos_neg, show (19 : ℝ) * π / 36 = π / 2 + π / 36 by ring,
    cos_pi_div_two_add', abs_le]
  have hpi := Real.pi_lt_315
  constructor
  · nlinarith [sin_pi_div_36_lt]
  · nlinarith [sin_pi_div_36_nonneg]

lemma pk_A_C : SymmetryLineValidator.get_projected_distance_key (3 / 10)
    (19 * π / 36) = 0 := by
  apply projected_key_zero
  rw [show (19 : ℝ) * π / 36 = π / 2 + π / 36 by ring, cos_pi_div_two_add',
    abs_le]
  have hpi := Real.pi_lt_315
  constructor
  · nlinarith [sin_pi_div_36_lt]
  · nlinarith [sin_pi_div_36_nonneg]

lemma pk_B_C : SymmetryLineValidator.get_projected_distance_key (3 / 10)
    (-(17 * π / 36)) = 0 := by
  apply projected_key_zero
  rw [Real.cos_neg, show (17 : ℝ) * π / 36 = π / 2 - π / 36 by ring,
    Real.cos_pi_div_two_sub, abs_le]
  have hpi := Real.pi_lt_315
  constructor
  · nlinarith [sin_pi_div_36_nonneg]
  · nlinarith [sin_pi_div_36_lt]

/-! Evaluation of the validator on the shells of `ps7`. -/

lemma symStep_aligned (line bc : Point2D) (st : ℕ × ℕ × List ℝ) (p : Point)
    (hr : ¬((Point2D.sub p.location bc).r < EPSILON))
    (ha : SymmetryLineValidator.is_aligned p line bc = true) :
    SymmetryLineValidator.symStep line bc st p =
      (st.1, st.2.1 + 1, st.2.2) := by
  rw [SymmetryLineValidator.symStep, if_neg hr, if_pos ha]

lemma symStep_key_new (line bc : Point2D) (st : ℕ × ℕ × List ℝ) (p : Point)
    (k : ℝ) (hr : ¬((Point2D.sub p.location bc).r < EPSILON))
    (ha : SymmetryLineValidator.is_aligned p line bc = false)
    (hk : SymmetryLineValidator.get_projected_distance_key
      p.distance_barycenter ((Point2D.sub p.location bc).a - line.a) = k)
    (hmem : k ∉ st.2.2) :
    SymmetryLineValidator.symStep line bc st p =
      (st.1, st.2.1, st.2.2 ++ [k]) := by
  rw [SymmetryLineValidator.symStep, if_neg hr, ha,
    if_neg Bool.false_ne_true]
  simp only [hk]
  rw [if_neg hmem]

lemma symStep_key_dup (line bc : Point2D) (st : ℕ × ℕ × List ℝ) (p : Point)
    (k : ℝ) (hr : ¬((Point2D.sub p.location bc).r < EPSILON))
    (ha : SymmetryLineValidator.is_aligned p line bc = false)
    (hk : SymmetryLineValidator.get_projected_distance_key
      p.distance_barycenter ((Point2D.sub p.location bc).a - line.a) = k)
    (hmem : k ∈ st.2.2) :
    SymmetryLineValidator.symStep line bc st p = st := by
  rw [SymmetryLineValidator.symStep, if_neg hr, ha,
    if_neg Bool.false_ne_true]
  simp only [hk]
  rw [if_pos hmem]

lemma vF_Fb : SymmetryLineValidator.is_symmetric [pF, pG] lineF
    (⟨0, 0, 0, 0⟩ : Point2D) = true := by
  rw [SymmetryLineValidator.is_symmetric, List.foldl_cons,
    symStep_aligned _ _ _ _ hr_pF alF_F, List.foldl_cons,
    symStep_aligned _ _ _ _ hr_pG alF_G, List.foldl_nil]
  simp

lemma vF_Ab : SymmetryLineValidator.is_symmetric [pA, pB] lineF
    (⟨0, 0, 0, 0⟩ : Point2D) = false := by
  have hk1 : SymmetryLineValidator.get_projected_distance_key
      pA.distance_barycenter
      ((Point2D.sub pA.location (⟨0, 0, 0, 0⟩ : Point2D)).a - lineF.a) =
      -(3 / 10) := by
    rw [show pA.distance_barycenter = 3 / 10 from rfl, suba_pA, ha_lineF,
      show π / 2 - (4 * π / 9 - π) = 19 * π / 18 by ring]
    exact pk_A_F
  have hk2 : SymmetryLineValidator.get_projected_distance_key
      pB.distance_barycenter
      ((Point2D.sub pB.location (⟨0, 0, 0, 0⟩ : Point2D)).a - lineF.a) =
      3 / 10 := by
    rw [show pB.distance_barycenter = 3 / 10 from rfl, suba_pB, ha_lineF,
      show -(π / 2) - (4 * π / 9 - π) = π / 18 by ring]
    exact pk_B_F
  rw [SymmetryLineValidator.is_symmetric, List.foldl_cons,
    symStep_key_new _ _ _ _ _ hr_pA alF_A hk1 (by simp), List.foldl_cons,
    symStep_key_new _ _ _ _ _ hr_pB alF_B hk2 ?hmem, List.foldl_nil]
  case hmem => norm_num
  simp

lemma vA_Fb : SymmetryLineValidator.is_symmetric [pF, pG] lineA
    (⟨0, 0, 0, 0⟩ : Point2D) = true := by
  have hk1 : SymmetryLineValidator.get_projected_distance_key
      pF.distance_barycenter
      ((Point2D.sub pF.location (⟨0, 0, 0, 0⟩ : Point2D)).a - lineA.a) =
      0 := by
    rw [show pF.distance_barycenter = 1 / 20 from rfl, suba_pF, ha_lineA,
      show 4 * π / 9 - -(π / 2) = 17 * π / 18 by ring]
    exact pk_F_A
  have hk2 : SymmetryLineValidator.get_projected_distance_key
      pG.distance_barycenter
      ((Point2D.sub pG.location (⟨0, 0, 0, 0⟩ : Point2D)).a - lineA.a) =
      0 := by
    rw [show pG.distance_barycenter = 1 / 20 from rfl, suba_pG, ha_lineA,
      show 4 * π / 9 - π - -(π / 2) = -(π / 18) by ring]
    exact pk_G_A
  rw [SymmetryLineValidator.is_symmetric, List.foldl_cons,
    symStep_key_new _ _ _ _ _ hr_pF alA_F hk1 (by simp), List.foldl_cons,
    symStep_key_dup _ _ _ _ _ hr_pG alA_G hk2 (by simp), List.foldl_nil]
  simp

lemma vA_Ab : SymmetryLineValidator.is_symmetric [pA, pB] lineA
    (⟨0, 0, 0, 0⟩ : Point2D) = true := by
  rw [SymmetryLineValidator.is_symmetric, List.foldl_cons,
    symStep_aligned _ _ _ _ hr_pA alA_A, List.foldl_cons,
    symStep_aligned _ _ _ _ hr_pB alA_B, List.foldl_nil]
  simp

lemma vA_Cb : SymmetryLineValidator.is_symmetric [pC, pD] lineA
    (⟨0, 0, 0, 0⟩ : Point2D) = true := by
  have hk1 : SymmetryLineValidator.get_projected_distance_key
      pC.distance_barycenter
      ((Point2D.sub pC.location (⟨0, 0, 0, 0⟩ : Point2D)).a - lineA.a) =
      0 := by
    rw [show pC.distance_barycenter = 1 / 5 from rfl, suba_pC, ha_lineA,
      show 35 * π / 36 - -(π / 2) = 53 * π / 36 by ring]
    exact pk_C_A
  have hk2 : SymmetryLineValidator.get_projected_distance_key
      pD.distance_barycenter
      ((Point2D.sub pD.location (⟨0, 0, 0, 0⟩ : Point2D)).a - lineA.a) =
      0 := by
    rw [show pD.distance_barycenter = 1 / 5 from rfl, suba_pD, ha_lineA,
      show 35 * π / 36 - π - -(π / 2) = 17 * π / 36 by ring]
    exact pk_D_A
  rw [SymmetryLineValidator.is_symmetric, List.foldl_cons,
    symStep_key_new _ _ _ _ _ hr_pC alA_C hk1 (by simp), List.foldl_cons,
    symStep_key_dup _ _ _ _ _ hr_pD alA_D hk2 (by simp), List.foldl_nil]
  simp

lemma vC_Fb : SymmetryLineValidator.is_symmetric [pF, pG] lineC
    (⟨0, 0, 0, 0⟩ : Point2D) = true := by
  have hk1 : SymmetryLineValidator.get_projected_distance_key
      pF.distance_barycenter
      ((Point2D.sub pF.location (⟨0, 0, 0, 0⟩ : Point2D)).a - lineC.a) =
      0 := by
    rw [show pF.distance_barycenter = 1 / 20 from rfl, suba_pF, ha_lineC,
      show 4 * π / 9 - (35 * π / 36 - π) = 17 * π / 36 by ring]
    exact pk_F_C
  have hk2 : SymmetryLineValidator.get_projected_distance_key
      pG.distance_barycenter
      ((Point2D.sub pG.location (⟨0, 0, 0, 0⟩ : Point2D)).a - lineC.a) =
      0 := by
    rw [show pG.distance_barycenter = 1 / 20 from rfl, suba_pG, ha_lineC,
      show 4 * π / 9 - π - (35 * π / 36 - π) = -(19 * π / 36) by ring]
    exact pk_G_C
  rw [SymmetryLineValidator.is_symmetric, List.foldl_cons,
    symStep_key_new _ _ _ _ _ hr_pF alC_F hk1 (by simp), List.foldl_cons,
    symStep_key_dup _ _ _ _ _ hr_pG alC_G hk2 (by simp), List.foldl_nil]
  simp

lemma vC_Ab : SymmetryLineValidator.is_symmetric [pA, pB] lineC
    (⟨0, 0, 0, 0⟩ : Point2D) = true := by
  have hk1 : SymmetryLineValidator.get_projected_distance_key
      pA.distance_barycenter
      ((Point2D.sub pA.location (⟨0, 0, 0, 0⟩ : Point2D)).a - lineC.a) =
      0 := by
    rw [show pA.distance_barycenter = 3 / 10 from rfl, suba_pA, ha_lineC,
      show π / 2 - (35 * π / 36 - π) = 19 * π / 36 by ring]
    exact pk_A_C
  have hk2 : SymmetryLineValidator.get_projected_distance_key
      pB.distance_barycenter
      ((Point2D.sub pB.location (⟨0, 0, 0, 0⟩ : Point2D)).a - lineC.a) =
      0 := by
    rw [show pB.distance_barycenter = 3 / 10 from rfl, suba_pB, ha_lineC,
      show -(π / 2) - (35 * π / 36 - π) = -(17 * π / 36) by ring]
    exact pk_B_C
  rw [SymmetryLineValidator.is_symmetric, List.foldl_cons,
    symStep_key_new _ _ _ _ _ hr_pA alC_A hk1 (by simp), List.foldl_cons,
    symStep_key_dup _ _ _ _ _ hr_pB alC_B hk2 (by simp), List.foldl_nil]
  simp

lemma vC_Cb : SymmetryLineValidator.is_symmetric [pC, pD] lineC
    (⟨0, 0, 0, 0⟩ : Point2D) = true := by
  rw [SymmetryLineValidator.is_symmetric, List.foldl_cons,
    symStep_aligned _ _ _ _ hr_pC alC_C, List.foldl_cons,
    symStep_aligned _ _ _ _ hr_pD alC_D, List.foldl_nil]
  simp

/-! Evaluation of the analyzer-level symmetry test for the three validated
candidate lines of the `ps7` run. -/

lemma isSymF : PointSetSymmetryAnalyzer.is_symmetric
    [(3, [pF, pG]), (1, [pA, pB]), (2, [pC, pD]), (4, [pE])] lineF
    (⟨0, 0, 0, 0⟩ : Point2D) = false := by
  have hE : SymmetryLineValidator.is_aligned pE lineF
      (⟨0, 0, 0, 0⟩ : Point2D) = true :=
    is_aligned_coincident pE lineF _ hr0_pE
  rw [PointSetSymmetryAnalyzer.is_symmetric]
  simp only [List.all_cons, List.all_nil, List.length_cons, List.length_nil,
    vF_Fb, vF_Ab, hE]
  norm_num

lemma isSymA : PointSetSymmetryAnalyzer.is_symmetric
    [(3, [pF, pG]), (1, [pA, pB]), (2, [pC, pD]), (4, [pE])] lineA
    (⟨0, 0, 0, 0⟩ : Point2D) = true := by
  have hE : SymmetryLineValidator.is_aligned pE lineA
      (⟨0, 0, 0, 0⟩ : Point2D) = true :=
    is_aligned_coincident pE lineA _ hr0_pE
  rw [PointSetSymmetryAnalyzer.is_symmetric]
  simp only [List.all_cons, List.all_nil, List.length_cons, List.length_nil,
    vA_Fb, vA_Ab, vA_Cb, hE]
  norm_num

lemma isSymC : PointSetSymmetryAnalyzer.is_symmetric
    [(3, [pF, pG]), (1, [pA, pB]), (2, [pC, pD]), (4, [pE])] lineC
    (⟨0, 0, 0, 0⟩ : Point2D) = true := by
  have hE : SymmetryLineValidator.is_aligned pE lineC
      (⟨0, 0, 0, 0⟩ : Point2D) = true :=
    is_aligned_coincident pE lineC _ hr0_pE
  rw [PointSetSymmetryAnalyzer.is_symmetric]
  simp only [List.all_cons, List.all_nil, List.length_cons, List.length_nil,
    vC_Fb, vC_Ab, vC_Cb, hE]
  norm_num

/-! Evaluation of the registry operations on concrete states. -/

lemma findVal_nil (k : ℝ) : findVal [] k = none := rfl

lemma findVal_cons_pos (k : ℝ) (v : Point2D) (rest : List (ℝ × Point2D)) :
    findVal ((k, v) :: rest) k = some v := by
  rw [findVal, List.find?_cons_of_pos _ (by simp)]
  rfl

lemma findVal_cons_neg (k k' : ℝ) (v : Point2D) (rest : List (ℝ × Point2D))
    (h : k' ≠ k) : findVal ((k, v) :: rest) k' = findVal rest k' := by
  rw [findVal, List.find?_cons_of_neg _ (by simp [Ne.symm h]), findVal]

lemma contains_true_of_sym (s : SymmetryLineSet) (line : Point2D)
    (v : Point2D)
    (h : findVal s.symmetric_lines (LineDirectionKey.calculate line) =
      some v) :
    s.contains line = true := by
  rw [SymmetryLineSet.contains]
  simp [h]

lemma contains_true_of_non (s : SymmetryLineSet) (line : Point2D)
    (h : LineDirectionKey.calculate line ∈ s.non_symmetric_lines) :
    s.contains line = true := by
  rw [SymmetryLineSet.contains]
  cases hs : findVal s.symmetric_lines (LineDirectionKey.calculate line) with
  | none => simp [hs, h]
  | some v => simp [hs]

lemma contains_false_of (s : SymmetryLineSet) (line : Point2D)
    (h1 : findVal s.symmetric_lines (LineDirectionKey.calculate line) = none)
    (h2 : LineDirectionKey.calculate line ∉ s.non_symmetric_lines) :
    s.contains line = false := by
  rw [SymmetryLineSet.contains]
  simp [h1, h2]

lemma add_true_eval (s : SymmetryLineSet) (line : Point2D) (k : ℝ)
    (hk : LineDirectionKey.calculate line = k)
    (h : findVal s.symmetric_lines k = none) :
    s.add line true = ⟨s.symmetric_lines ++ [(k, line)],
      s.non_symmetric_lines⟩ := by
  rw [SymmetryLineSet.add, if_pos rfl, hk, h]
  rfl

lemma add_false_eval (s : SymmetryLineSet) (line : Point2D) (k : ℝ)
    (hk : LineDirectionKey.calculate line = k)
    (h : k ∉ s.non_symmetric_lines) :
    s.add line false = ⟨s.symmetric_lines,
      s.non_symmetric_lines ++ [k]⟩ := by
  rw [SymmetryLineSet.add, if_neg Bool.false_ne_true, hk, if_neg h]

/-! Evaluation of the closure step performed when the `175°` direction of
the `ps7` run is confirmed. -/

/-- The direction object at angle `4π/9` (key `80.0`) derived by the closure
step of the `ps7` run. -/
noncomputable def d80 : Point2D :=
  Point2D.setA (Point2D.ofCartesian 0 0) (4 * π / 9)

/-- The direction object at angle `π/36` (key `5.0`) derived by the closure
step of the `ps7` run. -/
noncomputable def d5 : Point2D :=
  Point2D.setA (Point2D.ofCartesian 0 0) (π / 36)

lemma ha_d80 : d80.a = 4 * π / 9 := rfl

lemma key_d80 : LineDirectionKey.calculate d80 = 80 := by
  rw [d80, calculate_setA, k80p]

lemma key_d5 : LineDirectionKey.calculate d5 = 5 := by
  rw [d5, calculate_setA, k5p]

lemma infer_newlines_eval :
    PointSetSymmetryAnalyzer.inferNewLines ⟨[(90, lineA)], [80]⟩ lineC =
      [(80, d80), (5, d5)] := by
  have e1 : pymod (lineC.a - (lineA.a - lineC.a)) π = 4 * π / 9 := by
    rw [show lineC.a - (lineA.a - lineC.a) = 4 * π / 9 from by
      rw [ha_lineA, ha_lineC]; ring]
    exact pymod_eq_self (by positivity) (by linarith [Real.pi_pos])
  have e2 : pymod (lineA.a + (lineA.a - lineC.a)) π = π / 36 := by
    rw [show lineA.a + (lineA.a - lineC.a) = π / 36 - π from by
      rw [ha_lineA, ha_lineC]; ring]
    rw [pymod_eq_add Real.pi_pos (by linarith [Real.pi_pos])
      (by linarith [Real.pi_pos])]
    ring
  have E1 : Point2D.setA (Point2D.ofCartesian 0 0)
      (pymod (lineC.a - (lineA.a - lineC.a)) π) = d80 := by
    rw [e1]
    rfl
  have E2 : Point2D.setA (Point2D.ofCartesian 0 0)
      (pymod (lineA.a + (lineA.a - lineC.a)) π) = d5 := by
    rw [e2]
    rfl
  have F2 : findVal [((80 : ℝ), d80)] 5 = none := by
    rw [findVal_cons_neg _ _ _ _ (by norm_num), findVal_nil]
  rw [PointSetSymmetryAnalyzer.inferNewLines]
  simp only [List.foldl_cons, List.foldl_nil]
  simp only [E1, E2, key_d80, key_d5]
  show (if (findVal [((80 : ℝ), d80)] 5).isSome = true
    then [((80 : ℝ), d80)] else [((80 : ℝ), d80)] ++ [((5 : ℝ), d5)]) =
    [(80, d80), (5, d5)]
  rw [F2]
  rfl

lemma infer_eval_C :
    PointSetSymmetryAnalyzer.infer_next_symmetric ⟨[(90, lineA)], [80]⟩
      lineC = ⟨[(90, lineA), (80, d80), (5, d5)], [80]⟩ := by
  have h1 : SymmetryLineSet.contains ⟨[(90, lineA)], [80]⟩ d80 false =
      false := by
    rw [contains_false_eq, key_d80, findVal_cons_neg _ _ _ _ (by norm_num),
      findVal_nil]
    rfl
  have h2 : SymmetryLineSet.add ⟨[(90, lineA)], [80]⟩ d80 true =
      ⟨[(90, lineA), (80, d80)], [80]⟩ := by
    rw [add_true_eval _ _ 80 key_d80
      (by rw [findVal_cons_neg _ _ _ _ (by norm_num), findVal_nil])]
    rfl
  have h3 : SymmetryLineSet.contains ⟨[(90, lineA), (80, d80)], [80]⟩ d5
      false = false := by
    rw [contains_false_eq, key_d5, findVal_cons_neg _ _ _ _ (by norm_num),
      findVal_cons_neg _ _ _ _ (by norm_num), findVal_nil]
    rfl
  have h4 : SymmetryLineSet.add ⟨[(90, lineA), (80, d80)], [80]⟩ d5 true =
      ⟨[(90, lineA), (80, d80), (5, d5)], [80]⟩ := by
    rw [add_true_eval _ _ 5 key_d5
      (by rw [findVal_cons_neg _ _ _ _ (by norm_num),
        findVal_cons_neg _ _ _ _ (by norm_num), findVal_nil])]
    rfl
  rw [PointSetSymmetryAnalyzer.infer_next_symmetric, infer_newlines_eval]
  simp only [List.foldl_cons, List.foldl_nil]
  rw [h1, if_neg Bool.false_ne_true, h2, h3, if_neg Bool.false_ne_true, h4]

/-! The pass-1 fold of `find_symmetry` on `ps7`, step by step. -/

lemma pass1Step_eval_new (ps : PointSet) (lines : SymmetryLineSet) (p : Point)
    (B L : Point2D) (b : Bool) (pt : List (ℕ × List Point))
    (hbc : ps.barycenter = B)
    (hr : ¬((Point2D.sub p.location B).r < EPSILON))
    (hline : Point2D.sub B p.location = L)
    (hc : lines.contains L = false)
    (hpt : partitionByColor ps.get = pt)
    (hsym : PointSetSymmetryAnalyzer.is_symmetric pt L B = b) :
    PointSetSymmetryAnalyzer.pass1Step ps lines p =
      (if b then PointSetSymmetryAnalyzer.infer_next_symmetric lines L
        else lines).add L b := by
  rw [PointSetSymmetryAnalyzer.pass1Step, hbc, if_neg hr]
  simp only [hline]
  rw [hc, if_neg Bool.false_ne_true]
  simp only [hpt, hsym]

lemma pass1Step_eval_skip (ps : PointSet) (lines : SymmetryLineSet)
    (p : Point) (B L : Point2D) (hbc : ps.barycenter = B)
    (hr : ¬((Point2D.sub p.location B).r < EPSILON))
    (hline : Point2D.sub B p.location = L)
    (hc : lines.contains L = true) :
    PointSetSymmetryAnalyzer.pass1Step ps lines p = lines := by
  rw [PointSetSymmetryAnalyzer.pass1Step, hbc, if_neg hr]
  simp only [hline, hc]
  rfl

lemma pass1Step_eval_coincident (ps : PointSet) (lines : SymmetryLineSet)
    (p : Point) (B : Point2D) (hbc : ps.barycenter = B)
    (hr : (Point2D.sub p.location B).r < EPSILON) :
    PointSetSymmetryAnalyzer.pass1Step ps lines p = lines := by
  rw [PointSetSymmetryAnalyzer.pass1Step, hbc, if_pos hr]

lemma infer_nil (s : SymmetryLineSet) (hs : s.symmetric_lines = [])
    (d : Point2D) : PointSetSymmetryAnalyzer.infer_next_symmetric s d = s := by
  rw [PointSetSymmetryAnalyzer.infer_next_symmetric,
    PointSetSymmetryAnalyzer.inferNewLines, hs, List.foldl_nil,
    List.foldl_nil]

lemma step_pF : PointSetSymmetryAnalyzer.pass1Step ps7set
    SymmetryLineSet.empty pF = ⟨[], [80]⟩ := by
  have hc : SymmetryLineSet.empty.contains lineF = false := by
    apply contains_false_of
    · rw [key_lineF]
      exact findVal_nil 80
    · rw [key_lineF]
      exact List.not_mem_nil 80
  rw [pass1Step_eval_new ps7set SymmetryLineSet.empty pF ⟨0, 0, 0, 0⟩ lineF
    false _ ps7set_barycenter hr_pF line_pF hc ps7_part isSymF]
  show SymmetryLineSet.add SymmetryLineSet.empty lineF false = ⟨[], [80]⟩
  rw [add_false_eval _ _ 80 key_lineF (List.not_mem_nil 80)]
  rfl

lemma step_pG : PointSetSymmetryAnalyzer.pass1Step ps7set
    (⟨[], [80]⟩ : SymmetryLineSet) pG = ⟨[], [80]⟩ := by
  have hc : SymmetryLineSet.contains ⟨[], [80]⟩ lineG = true := by
    apply contains_true_of_non
    rw [key_lineG]
    simp
  exact pass1Step_eval_skip ps7set _ pG ⟨0, 0, 0, 0⟩ lineG
    ps7set_barycenter hr_pG line_pG hc

lemma step_pA : PointSetSymmetryAnalyzer.pass1Step ps7set
    (⟨[], [80]⟩ : SymmetryLineSet) pA = ⟨[(90, lineA)], [80]⟩ := by
  have hc : SymmetryLineSet.contains ⟨[], [80]⟩ lineA = false := by
    apply contains_false_of
    · rw [key_lineA]
      exact findVal_nil 90
    · rw [key_lineA]
      norm_num
  rw [pass1Step_eval_new ps7set _ pA ⟨0, 0, 0, 0⟩ lineA true _
    ps7set_barycenter hr_pA line_pA hc ps7_part isSymA]
  show (PointSetSymmetryAnalyzer.infer_next_symmetric ⟨[], [80]⟩ lineA).add
    lineA true = ⟨[(90, lineA)], [80]⟩
  rw [infer_nil _ rfl lineA, add_true_eval _ _ 90 key_lineA (findVal_nil 90)]
  rfl

lemma step_pB : PointSetSymmetryAnalyzer.pass1Step ps7set
    (⟨[(90, lineA)], [80]⟩ : SymmetryLineSet) pB =
    ⟨[(90, lineA)], [80]⟩ := by
  have hc : SymmetryLineSet.contains ⟨[(90, lineA)], [80]⟩ lineB = true := by
    apply contains_true_of_sym _ _ lineA
    rw [key_lineB]
    exact findVal_cons_pos 90 lineA []
  exact pass1Step_eval_skip ps7set _ pB ⟨0, 0, 0, 0⟩ lineB
    ps7set_barycenter hr_pB line_pB hc

lemma step_pC : PointSetSymmetryAnalyzer.pass1Step ps7set
    (⟨[(90, lineA)], [80]⟩ : SymmetryLineSet) pC =
    ⟨[(90, lineA), (80, d80), (5, d5), (175, lineC)], [80]⟩ := by
  have hfv1 : findVal [((90 : ℝ), lineA)] (175 : ℝ) = none := by
    rw [findVal_cons_neg _ _ _ _ (by norm_num), findVal_nil]
  have hc : SymmetryLineSet.contains ⟨[(90, lineA)], [80]⟩ lineC = false := by
    apply contains_false_of
    · rw [key_lineC]
      exact hfv1
    · rw [key_lineC]
      norm_num
  have hfv2 : findVal [((90 : ℝ), lineA), ((80 : ℝ), d80), ((5 : ℝ), d5)]
      (175 : ℝ) = none := by
    rw [findVal_cons_neg _ _ _ _ (by norm_num),
      findVal_cons_neg _ _ _ _ (by norm_num),
      findVal_cons_neg _ _ _ _ (by norm_num), findVal_nil]
  rw [pass1Step_eval_new ps7set _ pC ⟨0, 0, 0, 0⟩ lineC true _
    ps7set_barycenter hr_pC line_pC hc ps7_part isSymC]
  show (PointSetSymmetryAnalyzer.infer_next_symmetric ⟨[(90, lineA)], [80]⟩
    lineC).add lineC true =
    ⟨[(90, lineA), (80, d80), (5, d5), (175, lineC)], [80]⟩
  rw [infer_eval_C, add_true_eval _ _ 175 key_lineC hfv2]
  rfl

lemma step_pD : PointSetSymmetryAnalyzer.pass1Step ps7set
    (⟨[(90, lineA), (80, d80), (5, d5), (175, lineC)], [80]⟩ :
      SymmetryLineSet) pD =
    ⟨[(90, lineA), (80, d80), (5, d5), (175, lineC)], [80]⟩ := by
  have hfv : findVal [((90 : ℝ), lineA), ((80 : ℝ), d80), ((5 : ℝ), d5),
      ((175 : ℝ), lineC)] (175 : ℝ) = some lineC := by
    rw [findVal_cons_neg _ _ _ _ (by norm_num),
      findVal_cons_neg _ _ _ _ (by norm_num),
      findVal_cons_neg _ _ _ _ (by norm_num)]
    exact findVal_cons_pos 175 lineC []
  have hc : SymmetryLineSet.contains
      ⟨[(90, lineA), (80, d80), (5, d5), (175, lineC)], [80]⟩ lineD =
      true := by
    apply contains_true_of_sym _ _ lineC
    rw [key_lineD]
    exact hfv
  exact pass1Step_eval_skip ps7set _ pD ⟨0, 0, 0, 0⟩ lineD
    ps7set_barycenter hr_pD line_pD hc

lemma step_pE : PointSetSymmetryAnalyzer.pass1Step ps7set
    (⟨[(90, lineA), (80, d80), (5, d5), (175, lineC)], [80]⟩ :
      SymmetryLineSet) pE =
    ⟨[(90, lineA), (80, d80), (5, d5), (175, lineC)], [80]⟩ :=
  pass1Step_eval_coincident ps7set _ pE ⟨0, 0, 0, 0⟩ ps7set_barycenter hr0_pE

lemma ps7_pass1 : PointSetSymmetryAnalyzer.pass1 ps7set =
    ⟨[(90, lineA), (80, d80), (5, d5), (175, lineC)], [80]⟩ := by
  rw [PointSetSymmetryAnalyzer.pass1, ps7set_get, List.foldl_cons, step_pF,
    List.foldl_cons, step_pG, List.foldl_cons, step_pA, List.foldl_cons,
    step_pB, List.foldl_cons, step_pC, List.foldl_cons, step_pD,
    List.foldl_cons, step_pE, List.foldl_nil]

lemma ps7_final : PointSetSymmetryAnalyzer.find_symmetry_lines ps7set =
    ⟨[(90, lineA), (80, d80), (5, d5), (175, lineC)], [80]⟩ := by
  rw [PointSetSymmetryAnalyzer.find_symmetry_lines,
    if_neg (by rw [ps7set_size]; norm_num)]
  exact ps7_pass1

/-- Claim C3 counterexample: on the seven-point configuration `ps7` the
registry of the `find_symmetry` run ends with the canonical key `80.0`
simultaneously in the confirmed map (inserted by the closure step when the
`175°` direction was confirmed) and in the non-symmetric set (inserted when
the direct validation of the `80°` candidate failed), violating the claimed
invariant. -/
theorem run_confirms_and_rejects_same_key :
    (80 : ℝ) ∈ (PointSetSymmetryAnalyzer.find_symmetry_lines
      ps7set).symmetric_lines.map Prod.fst ∧
    (80 : ℝ) ∈ (PointSetSymmetryAnalyzer.find_symmetry_lines
      ps7set).non_symmetric_lines := by
  rw [ps7_final]
  constructor
  · simp
  · simp

/-- Claim C4 counterexample: after the `find_symmetry` run on `ps7` the
directions with keys `90.0` and `80.0` are both confirmed, but the
reflection of the `90°` direction across the `80°` direction has canonical
key `70.0`, which is not confirmed: the final confirmed set is not closed
under reflection of confirmed pairs. -/
theorem closure_fails_on_confirmed_pair :
    ((90 : ℝ), lineA) ∈ (PointSetSymmetryAnalyzer.find_symmetry_lines
      ps7set).symmetric_lines ∧
    ((80 : ℝ), d80) ∈ (PointSetSymmetryAnalyzer.find_symmetry_lines
      ps7set).symmetric_lines ∧
    keyOfAngle (pymod (2 * d80.a - lineA.a) π) = 70 ∧
    (70 : ℝ) ∉ (PointSetSymmetryAnalyzer.find_symmetry_lines
      ps7set).symmetric_lines.map Prod.fst := by
  rw [ps7_final]
  refine ⟨by simp, by simp, ?_, by norm_num⟩
  rw [ha_d80, ha_lineA,
    show 2 * (4 * π / 9) - -(π / 2) = 25 * π / 18 by ring,
    pymod_eq_sub Real.pi_pos (by linarith [Real.pi_pos])
      (by linarith [Real.pi_pos]),
    show 25 * π / 18 - π = 7 * π / 18 by ring]
  exact k70

end PointsetSymmetry
